import Mathlib

/-!
Verification of the DHT worker core of this repository (storage.rs,
worker/handler.rs, worker/refresh.rs) against its specification.

The Rust code is shallowly embedded: machine integers and monotonic
instants become Nat, HashMap becomes an association list with unique
keys, iterators become lists, and the effectful handler code becomes
pure functions that return the messages sent and the events emitted.
Components of the repository whose source is not under src (routing
table internals, token store, transaction ids, the bootstrap and
lookup state machines, message codecs) are modelled from the spec and
are marked as such in their doc comments.
-/

set_option autoImplicit false

namespace BipDht

/-- Modelled from the spec: InfoHash is an opaque 160-bit identifier
with equality; represented as Nat. -/
abbrev InfoHash := Nat

/-- Modelled from the spec: NodeId is an opaque 160-bit identifier
with equality; represented as Nat. -/
abbrev NodeId := Nat

/-- Modelled from the spec: a socket address is an address family, an
IP address and a port. -/
structure SocketAddr where
  v6 : Bool
  ip : Nat
  port : Nat
deriving DecidableEq, Repr

/-- Rust SocketAddr::set_port. -/
def SocketAddr.set_port (a : SocketAddr) (p : Nat) : SocketAddr :=
  { a with port := p }

/-- Rust SocketAddr::is_ipv4. -/
def SocketAddr.is_ipv4 (a : SocketAddr) : Bool := !a.v6

-- ----------------------------------------------------------------------------
-- storage.rs
-- ----------------------------------------------------------------------------

/-- storage.rs MAX_ITEMS_STORED. -/
def MAX_ITEMS_STORED : Nat := 500

/-- storage.rs EXPIRATION_TIME, in seconds (24 hours). -/
def EXPIRATION_TIME : Nat := 24 * 60 * 60

/-- storage.rs ItemExpiration: the address, the insertion instant and
the info hash of one stored announce pair. Instants are Nat seconds. -/
structure ItemExpiration where
  address : SocketAddr
  inserted : Nat
  info_hash : InfoHash
deriving DecidableEq, Repr

/-- The pair identity of an expiration entry: Rust PartialEq for
ItemExpiration compares address and info hash only. -/
def ItemExpiration.key (e : ItemExpiration) : SocketAddr × InfoHash :=
  (e.address, e.info_hash)

/-- Rust PartialEq for ItemExpiration (storage.rs lines 198-202):
equality on address and info hash, ignoring the insertion instant. -/
def ItemExpiration.keyEq (a b : ItemExpiration) : Bool :=
  a.address == b.address && a.info_hash == b.info_hash

theorem ItemExpiration.keyEq_iff (a b : ItemExpiration) :
    a.keyEq b = true ↔ a.key = b.key := by
  simp [ItemExpiration.keyEq, ItemExpiration.key, Prod.ext_iff]

/-- Rust ItemExpiration::is_expired: now - inserted >= EXPIRATION_TIME
(Instant subtraction; call sites keep now at or above inserted). -/
def ItemExpiration.is_expired (e : ItemExpiration) (now : Nat) : Bool :=
  EXPIRATION_TIME ≤ now - e.inserted

/-- storage.rs AnnounceItem: a wrapper holding an ItemExpiration.
Derived PartialEq delegates to the custom ItemExpiration equality. -/
structure AnnounceItem where
  expiration : ItemExpiration
deriving DecidableEq, Repr

/-- Rust AnnounceItem::new, with the insertion instant made explicit
(the Rust constructor reads Instant::now; add_item calls it with the
same instant it passes for pruning). -/
def AnnounceItem.new (info_hash : InfoHash) (address : SocketAddr) (now : Nat) :
    AnnounceItem :=
  ⟨⟨address, now, info_hash⟩⟩

/-- Rust AnnounceItem::address. -/
def AnnounceItem.address (it : AnnounceItem) : SocketAddr := it.expiration.address

/-- The HashMap from InfoHash to Vec of AnnounceItem, embedded as an
association list whose keys are unique (HashMap keys are unique). -/
abbrev StorageMap := List (InfoHash × List AnnounceItem)

/-- HashMap::get: value of the first (unique) entry with the key. -/
def mapGet (m : StorageMap) (k : InfoHash) : Option (List AnnounceItem) :=
  match m with
  | [] => none
  | p :: rest => if p.1 = k then some p.2 else mapGet rest k

/-- HashMap::get_mut followed by writing the value back: replace the
value of the (unique) entry with the key, if present. -/
def mapSet (m : StorageMap) (k : InfoHash) (v : List AnnounceItem) : StorageMap :=
  match m with
  | [] => []
  | p :: rest => if p.1 = k then (p.1, v) :: rest else p :: mapSet rest k v

/-- HashMap::remove: drop the entry with the key. -/
def mapRemove (m : StorageMap) (k : InfoHash) : StorageMap :=
  m.filter (fun p => !(p.1 == k))

/-- HashMap::entry: push the item onto the existing Vec (Occupied) or
insert a fresh one-element Vec (Vacant). -/
def mapEntryPush (m : StorageMap) (k : InfoHash) (it : AnnounceItem) : StorageMap :=
  match m with
  | [] => [(k, [it])]
  | p :: rest =>
      if p.1 = k then (p.1, p.2 ++ [it]) :: rest else p :: mapEntryPush rest k it

/-- storage.rs AnnounceStorage: the info-hash keyed contact map plus
the FIFO expiration queue. -/
structure AnnounceStorage where
  storage : StorageMap
  expires : List ItemExpiration
deriving DecidableEq, Repr

/-- Rust AnnounceStorage::new. -/
def AnnounceStorage.new : AnnounceStorage := ⟨[], []⟩

/-- One drained expiration of remove_expired_items (storage.rs lines
117-134): retain the contacts not matching the expired pair in its
info hash bucket, dropping the bucket when it empties. -/
def removeExpiration (m : StorageMap) (e : ItemExpiration) : StorageMap :=
  match mapGet m e.info_hash with
  | none => m
  | some items =>
      let items2 := items.filter (fun a => !(a.expiration.keyEq e))
      if items2.isEmpty then mapRemove m e.info_hash
      else mapSet m e.info_hash items2

/-- Rust AnnounceStorage::remove_expired_items: count the expired
prefix of the FIFO, drain it, and apply each drained expiration to the
storage map in order. -/
def AnnounceStorage.remove_expired_items (s : AnnounceStorage) (curr_time : Nat) :
    AnnounceStorage :=
  let expired := s.expires.takeWhile (fun i => i.is_expired curr_time)
  { storage := expired.foldl removeExpiration s.storage
    expires := s.expires.dropWhile (fun i => i.is_expired curr_time) }

/-- Rust AnnounceStorage::insert_contact: returns none when the
contact could not be inserted, some true when it was already in the
table, some false when it was newly inserted. -/
def AnnounceStorage.insert_contact (s : AnnounceStorage) (item : AnnounceItem) :
    Option Bool × AnnounceStorage :=
  let item_info_hash := item.expiration.info_hash
  let already_in_list :=
    match mapGet s.storage item_info_hash with
    | some items => items.any (fun a => a.expiration.keyEq item.expiration)
    | none => false
  match already_in_list, decide (s.expires.length < MAX_ITEMS_STORED) with
  | false, true =>
      (some false, { s with storage := mapEntryPush s.storage item_info_hash item })
  | false, false => (none, s)
  | true, false => (some true, s)
  | true, true => (some true, s)

/-- Rust AnnounceStorage::add: prune expired items, then insert or
renew; a renewal moves the expiration to the FIFO tail. -/
def AnnounceStorage.add (s : AnnounceStorage) (info_hash : InfoHash)
    (address : SocketAddr) (curr_time : Nat) : Bool × AnnounceStorage :=
  let s := s.remove_expired_items curr_time
  let item := AnnounceItem.new info_hash address curr_time
  let item_expiration := item.expiration
  match s.insert_contact item with
  | (some true, s2) =>
      (true, { s2 with
        expires := s2.expires.filter (fun i => !(i.keyEq item_expiration))
          ++ [item_expiration] })
  | (some false, s2) =>
      (true, { s2 with expires := s2.expires ++ [item_expiration] })
  | (none, s2) => (false, s2)

/-- Rust AnnounceStorage::add_item is add at the current instant; the
instant is explicit here. -/
def AnnounceStorage.add_item (s : AnnounceStorage) (info_hash : InfoHash)
    (address : SocketAddr) (now : Nat) : Bool × AnnounceStorage :=
  s.add info_hash address now

/-- Rust AnnounceStorage::find: prune expired items, then list the
addresses stored under the info hash. -/
def AnnounceStorage.find (s : AnnounceStorage) (info_hash : InfoHash)
    (curr_time : Nat) : List SocketAddr × AnnounceStorage :=
  let s := s.remove_expired_items curr_time
  (((mapGet s.storage info_hash).getD []).map AnnounceItem.address, s)

/-- Rust AnnounceStorage::find_items is find at the current instant. -/
def AnnounceStorage.find_items (s : AnnounceStorage) (info_hash : InfoHash)
    (now : Nat) : List SocketAddr × AnnounceStorage :=
  s.find info_hash now

-- Observation sequences over the storage -------------------------------------

/-- One external call of the storage API. -/
inductive StorageOp where
  | add (info_hash : InfoHash) (address : SocketAddr)
  | find (info_hash : InfoHash)
deriving DecidableEq, Repr

/-- Apply one timed call (the Nat is the Instant::now of the call). -/
def applyOp (s : AnnounceStorage) (op : StorageOp × Nat) : AnnounceStorage :=
  match op.1 with
  | .add h a => (s.add_item h a op.2).2
  | .find h => (s.find_items h op.2).2

/-- Run a timed call sequence from AnnounceStorage::new. -/
def runOps (ops : List (StorageOp × Nat)) : AnnounceStorage :=
  ops.foldl applyOp AnnounceStorage.new

/-- The call instants are nondecreasing, as Instant::now is monotone. -/
def timesMono (ops : List (StorageOp × Nat)) : Prop :=
  List.Chain' (· ≤ ·) (ops.map Prod.snd)

/-- All contacts currently stored, across every info hash bucket. -/
def stoItems (m : StorageMap) : List AnnounceItem :=
  (m.map Prod.snd).flatten

/-- The (address, info-hash) pairs currently stored. -/
def stoKeys (m : StorageMap) : List (SocketAddr × InfoHash) :=
  (stoItems m).map (fun it => it.expiration.key)

/-- The (address, info-hash) pairs in the expiration FIFO. -/
def expKeys (s : AnnounceStorage) : List (SocketAddr × InfoHash) :=
  s.expires.map ItemExpiration.key

/-- Total number of stored (info-hash, address) pairs. -/
def totalPairs (s : AnnounceStorage) : Nat := (stoItems s.storage).length


-- ----------------------------------------------------------------------------
-- Structural lemmas about the storage map
-- ----------------------------------------------------------------------------

/-- Every contact sits in the bucket of its own info hash (true by
construction: insert_contact files an item under its info hash). -/
def BucketsOk (m : StorageMap) : Prop :=
  ∀ p ∈ m, ∀ it ∈ p.2, it.expiration.info_hash = p.1

/-- HashMap keys are unique. -/
def KeysNodup (m : StorageMap) : Prop := (m.map Prod.fst).Nodup

theorem keyEq_eq_beq (a b : ItemExpiration) : a.keyEq b = (a.key == b.key) := by
  rfl

theorem stoItems_nil : stoItems [] = [] := rfl

theorem stoItems_cons (p : InfoHash × List AnnounceItem) (m : StorageMap) :
    stoItems (p :: m) = p.2 ++ stoItems m := by
  simp [stoItems]

theorem stoItems_append (m₁ m₂ : StorageMap) :
    stoItems (m₁ ++ m₂) = stoItems m₁ ++ stoItems m₂ := by
  simp [stoItems]

theorem mem_stoItems {m : StorageMap} {it : AnnounceItem} :
    it ∈ stoItems m ↔ ∃ p, p ∈ m ∧ it ∈ p.2 := by
  simp only [stoItems, List.mem_flatten, List.mem_map]
  constructor
  · rintro ⟨l, ⟨p, hp, rfl⟩, hit⟩
    exact ⟨p, hp, hit⟩
  · rintro ⟨p, hp, hit⟩
    exact ⟨p.2, ⟨p, hp, rfl⟩, hit⟩

theorem mem_stoKeys {m : StorageMap} {k : SocketAddr × InfoHash} :
    k ∈ stoKeys m ↔ ∃ it, it ∈ stoItems m ∧ it.expiration.key = k := by
  simp only [stoKeys, List.mem_map]

theorem mapGet_eq_some_decompose {m : StorageMap} {k : InfoHash}
    {v : List AnnounceItem} (h : mapGet m k = some v) :
    ∃ m₁ m₂, m = m₁ ++ (k, v) :: m₂ ∧ k ∉ m₁.map Prod.fst := by
  induction m with
  | nil => simp [mapGet] at h
  | cons p rest ih =>
    by_cases hp : p.1 = k
    · refine ⟨[], rest, ?_, by simp⟩
      rw [mapGet, if_pos hp] at h
      obtain rfl : p.2 = v := Option.some.inj h
      cases p
      simp_all
    · rw [mapGet, if_neg hp] at h
      obtain ⟨m₁, m₂, rfl, hk⟩ := ih h
      refine ⟨p :: m₁, m₂, by simp, ?_⟩
      simp only [List.map_cons, List.mem_cons]
      rintro (h1 | h2)
      · exact hp h1.symm
      · exact hk h2

theorem mapGet_eq_none_not_mem {m : StorageMap} {k : InfoHash}
    (h : mapGet m k = none) : k ∉ m.map Prod.fst := by
  induction m with
  | nil => simp
  | cons p rest ih =>
    by_cases hp : p.1 = k
    · rw [mapGet, if_pos hp] at h
      cases h
    · rw [mapGet, if_neg hp] at h
      simp only [List.map_cons, List.mem_cons]
      rintro (h1 | h2)
      · exact hp h1.symm
      · exact ih h h2

theorem mapGet_of_mem_nodup {m : StorageMap} (hnd : KeysNodup m)
    {p : InfoHash × List AnnounceItem} (hp : p ∈ m) : mapGet m p.1 = some p.2 := by
  induction m with
  | nil => cases hp
  | cons q rest ih =>
    rcases List.mem_cons.mp hp with rfl | hmem
    · rw [mapGet, if_pos rfl]
    · have hq : q.1 ≠ p.1 := by
        intro he
        have : p.1 ∈ rest.map Prod.fst := List.mem_map_of_mem Prod.fst hmem
        have hnd' := hnd
        simp only [KeysNodup, List.map_cons, List.nodup_cons] at hnd'
        exact hnd'.1 (he ▸ this)
      rw [mapGet, if_neg hq]
      have : KeysNodup rest := by
        simp only [KeysNodup, List.map_cons, List.nodup_cons] at hnd
        exact hnd.2
      exact ih this hmem

theorem mapRemove_decompose {m₁ m₂ : StorageMap} {k : InfoHash}
    {v : List AnnounceItem} (h₁ : k ∉ m₁.map Prod.fst) (h₂ : k ∉ m₂.map Prod.fst) :
    mapRemove (m₁ ++ (k, v) :: m₂) k = m₁ ++ m₂ := by
  unfold mapRemove
  rw [List.filter_append, List.filter_cons]
  have hm₁ : m₁.filter (fun p => !(p.1 == k)) = m₁ := by
    apply List.filter_eq_self.mpr
    intro p hp
    simp only [Bool.not_eq_eq_eq_not, Bool.not_true, beq_eq_false_iff_ne, ne_eq]
    intro he
    exact h₁ (he ▸ List.mem_map_of_mem Prod.fst hp)
  have hm₂ : m₂.filter (fun p => !(p.1 == k)) = m₂ := by
    apply List.filter_eq_self.mpr
    intro p hp
    simp only [Bool.not_eq_eq_eq_not, Bool.not_true, beq_eq_false_iff_ne, ne_eq]
    intro he
    exact h₂ (he ▸ List.mem_map_of_mem Prod.fst hp)
  simp [hm₁, hm₂]

theorem mapSet_decompose {m₁ m₂ : StorageMap} {k : InfoHash}
    {v w : List AnnounceItem} (h₁ : k ∉ m₁.map Prod.fst) :
    mapSet (m₁ ++ (k, v) :: m₂) k w = m₁ ++ (k, w) :: m₂ := by
  induction m₁ with
  | nil => simp [mapSet]
  | cons p rest ih =>
    have hp : p.1 ≠ k := by
      intro he
      exact h₁ (by simp [he])
    have hrest : k ∉ rest.map Prod.fst := by
      intro hmem
      exact h₁ (by simp [hmem])
    simp only [List.cons_append, mapSet, if_neg hp]
    exact congrArg (p :: ·) (ih hrest)

theorem mapEntryPush_decompose {m₁ m₂ : StorageMap} {k : InfoHash}
    {v : List AnnounceItem} {it : AnnounceItem} (h₁ : k ∉ m₁.map Prod.fst) :
    mapEntryPush (m₁ ++ (k, v) :: m₂) k it = m₁ ++ (k, v ++ [it]) :: m₂ := by
  induction m₁ with
  | nil => simp [mapEntryPush]
  | cons p rest ih =>
    have hp : p.1 ≠ k := by
      intro he
      exact h₁ (by simp [he])
    have hrest : k ∉ rest.map Prod.fst := by
      intro hmem
      exact h₁ (by simp [hmem])
    simp only [List.cons_append, mapEntryPush, if_neg hp]
    exact congrArg (p :: ·) (ih hrest)

theorem mapEntryPush_of_none {m : StorageMap} {k : InfoHash} {it : AnnounceItem}
    (h : mapGet m k = none) : mapEntryPush m k it = m ++ [(k, [it])] := by
  induction m with
  | nil => simp [mapEntryPush]
  | cons p rest ih =>
    by_cases hp : p.1 = k
    · rw [mapGet, if_pos hp] at h
      cases h
    · rw [mapGet, if_neg hp] at h
      simp only [mapEntryPush, if_neg hp, List.cons_append]
      rw [ih h]


theorem bucketsOk_append {m₁ m₂ : StorageMap} :
    BucketsOk (m₁ ++ m₂) ↔ BucketsOk m₁ ∧ BucketsOk m₂ := by
  simp only [BucketsOk, List.mem_append]
  constructor
  · intro h
    exact ⟨fun p hp => h p (Or.inl hp), fun p hp => h p (Or.inr hp)⟩
  · rintro ⟨h₁, h₂⟩ p (hp | hp)
    · exact h₁ p hp
    · exact h₂ p hp

theorem keysNodup_middle {m₁ m₂ : StorageMap} {k : InfoHash} {v : List AnnounceItem}
    (h : KeysNodup (m₁ ++ (k, v) :: m₂)) :
    k ∉ m₁.map Prod.fst ∧ k ∉ m₂.map Prod.fst ∧ KeysNodup (m₁ ++ m₂) := by
  simp only [KeysNodup, List.map_append, List.map_cons] at h ⊢
  have h2 := List.Nodup.of_append_right h
  have hd := (List.nodup_append.mp h).2.2
  constructor
  · intro hk
    exact (List.disjoint_right.mp hd (List.mem_cons_self k _)) hk
  constructor
  · exact (List.nodup_cons.mp h2).1
  · refine List.nodup_append.mpr ⟨List.Nodup.of_append_left h, (List.nodup_cons.mp h2).2, ?_⟩
    intro x hx₁ hx₂
    exact List.disjoint_left.mp hd hx₁ (List.mem_cons_of_mem _ hx₂)

/-- Contacts stored under a different info hash never match an
expiration with this info hash. -/
theorem filter_keyEq_id {m : StorageMap} {e : ItemExpiration}
    (hok : BucketsOk m) (hk : e.info_hash ∉ m.map Prod.fst) :
    (stoItems m).filter (fun a => !(a.expiration.keyEq e)) = stoItems m := by
  apply List.filter_eq_self.mpr
  intro it hit
  obtain ⟨p, hp, hitp⟩ := mem_stoItems.mp hit
  have hih := hok p hp it hitp
  simp only [Bool.not_eq_eq_eq_not, Bool.not_true, ItemExpiration.keyEq,
    Bool.and_eq_false_iff, beq_eq_false_iff_ne, ne_eq]
  right
  intro hcontra
  exact hk (by
    rw [← hcontra, hih]
    exact List.mem_map_of_mem Prod.fst hp)

/-- Effect of one drained expiration on the storage: exactly the
contacts matching the expired pair are removed, and the bucket
invariants are preserved. -/
theorem removeExpiration_eq {m : StorageMap} {e : ItemExpiration}
    (hok : BucketsOk m) (hnd : KeysNodup m) :
    BucketsOk (removeExpiration m e) ∧ KeysNodup (removeExpiration m e) ∧
      stoItems (removeExpiration m e)
        = (stoItems m).filter (fun a => !(a.expiration.keyEq e)) := by
  unfold removeExpiration
  cases hget : mapGet m e.info_hash with
  | none =>
    simp only
    exact ⟨hok, hnd, (filter_keyEq_id hok (mapGet_eq_none_not_mem hget)).symm⟩
  | some items =>
    obtain ⟨m₁, m₂, rfl, hm₁⟩ := mapGet_eq_some_decompose hget
    obtain ⟨_, hm₂, hnd'⟩ := keysNodup_middle hnd
    have hok₁ : BucketsOk m₁ := (bucketsOk_append.mp hok).1
    have hokc := (bucketsOk_append.mp hok).2
    have hok₂ : BucketsOk m₂ := by
      intro p hp
      exact hokc p (List.mem_cons_of_mem _ hp)
    have hokv : ∀ it ∈ items, it.expiration.info_hash = e.info_hash :=
      hokc (e.info_hash, items) (List.mem_cons_self _ _)
    have hsplit : stoItems (m₁ ++ (e.info_hash, items) :: m₂)
        = stoItems m₁ ++ (items ++ stoItems m₂) := by
      rw [stoItems_append, stoItems_cons]
    have hfil : (stoItems m₁ ++ (items ++ stoItems m₂)).filter
          (fun a => !(a.expiration.keyEq e))
        = stoItems m₁ ++ (items.filter (fun a => !(a.expiration.keyEq e)) ++ stoItems m₂) := by
      rw [List.filter_append, List.filter_append,
        filter_keyEq_id hok₁ hm₁, filter_keyEq_id hok₂ hm₂]
    by_cases hemp : (items.filter (fun a => !(a.expiration.keyEq e))).isEmpty
    · simp only [hemp, if_pos]
      rw [mapRemove_decompose hm₁ hm₂]
      refine ⟨bucketsOk_append.mpr ⟨hok₁, hok₂⟩, hnd', ?_⟩
      rw [hsplit, hfil, stoItems_append]
      rw [List.isEmpty_iff] at hemp
      rw [hemp]
      simp
    · simp only [hemp, if_neg, Bool.false_eq_true, not_false_iff]
      rw [mapSet_decompose hm₁]
      refine ⟨?_, ?_, ?_⟩
      · apply bucketsOk_append.mpr
        refine ⟨hok₁, ?_⟩
        intro p hp
        rcases List.mem_cons.mp hp with rfl | hp'
        · intro it hit
          exact hokv it (List.mem_filter.mp hit).1
        · exact hok₂ p hp'
      · simpa only [KeysNodup, List.map_append, List.map_cons] using hnd
      · rw [hsplit, hfil, stoItems_append, stoItems_cons]

/-- Effect of the vacant-or-occupied entry push on the storage: the new
contact joins the stored contacts, and the bucket invariants are
preserved when the contact is filed under its own info hash. -/
theorem mapEntryPush_eq {m : StorageMap} {k : InfoHash} {it : AnnounceItem}
    (hok : BucketsOk m) (hnd : KeysNodup m) (hkey : it.expiration.info_hash = k) :
    BucketsOk (mapEntryPush m k it) ∧ KeysNodup (mapEntryPush m k it) ∧
      List.Perm (stoItems (mapEntryPush m k it)) (stoItems m ++ [it]) := by
  cases hget : mapGet m k with
  | none =>
    rw [mapEntryPush_of_none hget]
    refine ⟨?_, ?_, ?_⟩
    · apply bucketsOk_append.mpr
      refine ⟨hok, ?_⟩
      intro p hp it' hit'
      rcases List.mem_cons.mp hp with rfl | hp'
      · rcases List.mem_singleton.mp hit' with rfl
        exact hkey
      · cases hp'
    · simp only [KeysNodup, List.map_append, List.map_cons, List.map_nil]
      refine List.Nodup.append hnd (List.nodup_singleton k) ?_
      intro x hx₁ hx₂
      rcases List.mem_singleton.mp hx₂ with rfl
      exact mapGet_eq_none_not_mem hget hx₁
    · rw [stoItems_append, stoItems_cons, stoItems_nil, List.append_nil]
  | some items =>
    obtain ⟨m₁, m₂, rfl, hm₁⟩ := mapGet_eq_some_decompose hget
    rw [mapEntryPush_decompose hm₁]
    have hokc := (bucketsOk_append.mp hok).2
    refine ⟨?_, ?_, ?_⟩
    · apply bucketsOk_append.mpr
      refine ⟨(bucketsOk_append.mp hok).1, ?_⟩
      intro p hp it' hit'
      rcases List.mem_cons.mp hp with rfl | hp'
      · rcases List.mem_append.mp hit' with hold | hnew
        · exact hokc (k, items) (List.mem_cons_self _ _) it' hold
        · rcases List.mem_singleton.mp hnew with rfl
          exact hkey
      · exact hokc p (List.mem_cons_of_mem _ hp') it' hit'
    · simpa only [KeysNodup, List.map_append, List.map_cons] using hnd
    · rw [stoItems_append, stoItems_cons, stoItems_append, stoItems_cons]
      have h1 : stoItems m₁ ++ ((items ++ [it]) ++ stoItems m₂)
          = stoItems m₁ ++ (items ++ ([it] ++ stoItems m₂)) := by simp
      have h2 : (stoItems m₁ ++ (items ++ stoItems m₂)) ++ [it]
          = stoItems m₁ ++ (items ++ (stoItems m₂ ++ [it])) := by simp
      rw [h1, h2]
      exact List.Perm.append_left _ (List.Perm.append_left _ List.perm_append_comm)

/-- The already-in-list check of insert_contact detects exactly whether
the pair is currently stored. -/
theorem already_in_list_iff {m : StorageMap} {ie : ItemExpiration}
    (hok : BucketsOk m) (hnd : KeysNodup m) :
    (match mapGet m ie.info_hash with
      | some items => items.any (fun a => a.expiration.keyEq ie)
      | none => false) = true
      ↔ ie.key ∈ stoKeys m := by
  cases hget : mapGet m ie.info_hash with
  | none =>
    simp only [Bool.false_eq_true, false_iff]
    intro hmem
    obtain ⟨it, hit, hkey⟩ := mem_stoKeys.mp hmem
    obtain ⟨p, hp, hitp⟩ := mem_stoItems.mp hit
    have h1 : it.expiration.info_hash = p.1 := hok p hp it hitp
    have h2 : it.expiration.info_hash = ie.info_hash := by
      have := congrArg Prod.snd hkey
      simpa [ItemExpiration.key] using this
    exact mapGet_eq_none_not_mem hget
      (by rw [← h2, h1]; exact List.mem_map_of_mem Prod.fst hp)
  | some items =>
    simp only [List.any_eq_true]
    constructor
    · rintro ⟨a, ha, hkeq⟩
      apply mem_stoKeys.mpr
      refine ⟨a, ?_, ?_⟩
      · apply mem_stoItems.mpr
        obtain ⟨m₁, m₂, rfl, hm₁⟩ := mapGet_eq_some_decompose hget
        exact ⟨(ie.info_hash, items), by simp, ha⟩
      · exact (ItemExpiration.keyEq_iff _ _).mp hkeq
    · intro hmem
      obtain ⟨it, hit, hkey⟩ := mem_stoKeys.mp hmem
      obtain ⟨p, hp, hitp⟩ := mem_stoItems.mp hit
      have h1 : it.expiration.info_hash = p.1 := hok p hp it hitp
      have h2 : it.expiration.info_hash = ie.info_hash := by
        have := congrArg Prod.snd hkey
        simpa [ItemExpiration.key] using this
      have hpk : p.1 = ie.info_hash := by rw [← h1, h2]
      have : mapGet m p.1 = some p.2 := mapGet_of_mem_nodup hnd hp
      rw [hpk, hget] at this
      obtain rfl : items = p.2 := Option.some.inj this
      exact ⟨it, hitp, (ItemExpiration.keyEq_iff _ _).mpr hkey⟩

/-- The addresses served for an info hash are exactly the stored pairs
with that info hash. -/
theorem mem_findList {m : StorageMap} (hok : BucketsOk m) (hnd : KeysNodup m)
    {h : InfoHash} {a : SocketAddr} :
    a ∈ ((mapGet m h).getD []).map AnnounceItem.address ↔ (a, h) ∈ stoKeys m := by
  cases hget : mapGet m h with
  | none =>
    simp only [Option.getD_none, List.map_nil, List.not_mem_nil, false_iff]
    intro hmem
    obtain ⟨it, hit, hkey⟩ := mem_stoKeys.mp hmem
    obtain ⟨p, hp, hitp⟩ := mem_stoItems.mp hit
    have h1 : it.expiration.info_hash = p.1 := hok p hp it hitp
    have h2 : it.expiration.info_hash = h := by
      have := congrArg Prod.snd hkey
      simpa [ItemExpiration.key] using this
    exact mapGet_eq_none_not_mem hget
      (by rw [← h2, h1]; exact List.mem_map_of_mem Prod.fst hp)
  | some items =>
    simp only [Option.getD_some, List.mem_map]
    constructor
    · rintro ⟨it, hit, rfl⟩
      apply mem_stoKeys.mpr
      obtain ⟨m₁, m₂, rfl, hm₁⟩ := mapGet_eq_some_decompose hget
      have hmem : (h, items) ∈ m₁ ++ (h, items) :: m₂ := by simp
      refine ⟨it, mem_stoItems.mpr ⟨(h, items), hmem, hit⟩, ?_⟩
      have := hok (h, items) hmem it hit
      simp [ItemExpiration.key, AnnounceItem.address, this]
    · intro hmem
      obtain ⟨it, hit, hkey⟩ := mem_stoKeys.mp hmem
      obtain ⟨p, hp, hitp⟩ := mem_stoItems.mp hit
      have h1 : it.expiration.info_hash = p.1 := hok p hp it hitp
      have h2 : it.expiration.info_hash = h := by
        have := congrArg Prod.snd hkey
        simpa [ItemExpiration.key] using this
      have hpk : p.1 = h := by rw [← h1, h2]
      have hsome : mapGet m p.1 = some p.2 := mapGet_of_mem_nodup hnd hp
      rw [hpk, hget] at hsome
      obtain rfl : items = p.2 := Option.some.inj hsome
      refine ⟨it, hitp, ?_⟩
      have := congrArg Prod.fst hkey
      simpa [ItemExpiration.key, AnnounceItem.address] using this


-- ----------------------------------------------------------------------------
-- The reachable-state invariant of the announce storage
-- ----------------------------------------------------------------------------

/-- Invariant of every reachable AnnounceStorage state: buckets are
keyed consistently, the FIFO lists exactly one expiration per stored
pair, and the FIFO is ordered by ascending insertion instant and
bounded by the item cap. -/
structure Inv (s : AnnounceStorage) : Prop where
  buck : BucketsOk s.storage
  keys : KeysNodup s.storage
  perm : List.Perm (expKeys s) (stoKeys s.storage)
  uniq : (expKeys s).Nodup
  sorted : s.expires.Pairwise (fun a b => a.inserted ≤ b.inserted)
  cap : s.expires.length ≤ MAX_ITEMS_STORED

/-- The invariant together with an upper bound on all insertion
instants (the bound is the instant of the latest call). -/
def InvAt (s : AnnounceStorage) (t : Nat) : Prop :=
  Inv s ∧ ∀ e ∈ s.expires, e.inserted ≤ t

theorem EXPIRATION_TIME_eq : EXPIRATION_TIME = 86400 := rfl

theorem remove_expired_expires (s : AnnounceStorage) (t : Nat) :
    (s.remove_expired_items t).expires
      = s.expires.dropWhile (fun i => i.is_expired t) := rfl

theorem remove_expired_storage (s : AnnounceStorage) (t : Nat) :
    (s.remove_expired_items t).storage
      = (s.expires.takeWhile (fun i => i.is_expired t)).foldl removeExpiration s.storage := rfl

theorem map_key_filter_keyEq (l : List AnnounceItem) (e : ItemExpiration) :
    (l.filter (fun a => !(a.expiration.keyEq e))).map (fun it => it.expiration.key)
      = (l.map (fun it => it.expiration.key)).filter (fun x => !(x == e.key)) := by
  induction l with
  | nil => rfl
  | cons it tl ih =>
    rw [List.filter_cons, List.map_cons, List.filter_cons]
    rw [keyEq_eq_beq]
    by_cases hkey : it.expiration.key == e.key
    · simp only [hkey, Bool.not_true, if_neg, Bool.false_eq_true, not_false_iff]
      exact ih
    · simp only [Bool.not_eq_true] at hkey
      simp only [hkey, Bool.not_false, if_pos, List.map_cons]
      rw [ih]

theorem map_key_filter_keyEq_exp (l : List ItemExpiration) (e : ItemExpiration) :
    (l.filter (fun i => !(i.keyEq e))).map ItemExpiration.key
      = (l.map ItemExpiration.key).filter (fun x => !(x == e.key)) := by
  induction l with
  | nil => rfl
  | cons i tl ih =>
    rw [List.filter_cons, List.map_cons, List.filter_cons]
    rw [keyEq_eq_beq]
    by_cases hkey : i.key == e.key
    · simp only [hkey, Bool.not_true, if_neg, Bool.false_eq_true, not_false_iff]
      exact ih
    · simp only [Bool.not_eq_true] at hkey
      simp only [hkey, Bool.not_false, if_pos, List.map_cons]
      rw [ih]

/-- Dropping one expired head pair preserves the invariant. -/
theorem inv_expire_step {m : StorageMap} {e : ItemExpiration}
    {tail : List ItemExpiration} (hinv : Inv ⟨m, e :: tail⟩) :
    Inv ⟨removeExpiration m e, tail⟩ := by
  obtain ⟨hok, hnd, hperm, huq, hsort, hcap⟩ := hinv
  obtain ⟨hok2, hnd2, hsto⟩ := @removeExpiration_eq m e hok hnd
  have hkeys : stoKeys (removeExpiration m e)
      = (stoKeys m).filter (fun x => !(x == e.key)) := by
    rw [stoKeys, hsto, map_key_filter_keyEq]
    rfl
  have hperm' : List.Perm ((e.key :: tail.map ItemExpiration.key).filter
        (fun x => !(x == e.key)))
      ((stoKeys m).filter (fun x => !(x == e.key))) := by
    apply List.Perm.filter
    simpa [expKeys] using hperm
  have hne : e.key ∉ tail.map ItemExpiration.key := by
    have := huq
    simp only [expKeys, List.map_cons, List.nodup_cons] at this
    exact this.1
  have hself : ((e.key :: tail.map ItemExpiration.key).filter
        (fun x => !(x == e.key)))
      = tail.map ItemExpiration.key := by
    rw [List.filter_cons]
    simp only [beq_self_eq_true, Bool.not_true, if_neg, Bool.false_eq_true, not_false_iff]
    apply List.filter_eq_self.mpr
    intro x hx
    simp only [Bool.not_eq_eq_eq_not, Bool.not_true, beq_eq_false_iff_ne, ne_eq]
    intro hcontra
    exact hne (hcontra ▸ hx)
  refine ⟨hok2, hnd2, ?_, ?_, ?_, ?_⟩
  · rw [expKeys]
    simp only
    rw [hkeys, ← hself]
    exact hperm'
  · have := huq
    simp only [expKeys, List.map_cons, List.nodup_cons] at this ⊢
    exact this.2
  · exact (List.pairwise_cons.mp hsort).2
  · exact Nat.le_of_succ_le hcap

/-- Draining a prefix of the FIFO preserves the invariant. -/
theorem inv_drain (front : List ItemExpiration) :
    ∀ (m : StorageMap) (rest : List ItemExpiration), Inv ⟨m, front ++ rest⟩ →
      Inv ⟨front.foldl removeExpiration m, rest⟩ := by
  induction front with
  | nil =>
    intro m rest h
    simpa using h
  | cons e front ih =>
    intro m rest h
    have h1 : Inv ⟨removeExpiration m e, front ++ rest⟩ :=
      inv_expire_step (by simpa using h)
    simpa using ih _ _ h1

/-- Pruning preserves the invariant. -/
theorem inv_remove_expired {s : AnnounceStorage} (hinv : Inv s) (t : Nat) :
    Inv (s.remove_expired_items t) := by
  have h : Inv ⟨s.storage,
      s.expires.takeWhile (fun i => i.is_expired t)
        ++ s.expires.dropWhile (fun i => i.is_expired t)⟩ := by
    rw [List.takeWhile_append_dropWhile]
    exact hinv
  exact inv_drain _ _ _ h

theorem mem_expires_remove_expired {s : AnnounceStorage} {t : Nat}
    {e : ItemExpiration} (he : e ∈ (s.remove_expired_items t).expires) :
    e ∈ s.expires := by
  rw [remove_expired_expires] at he
  exact (List.dropWhile_sublist _).subset he

theorem invAt_remove_expired {s : AnnounceStorage} {t t' : Nat}
    (hs : InvAt s t) (ht : t ≤ t') : InvAt (s.remove_expired_items t') t' := by
  refine ⟨inv_remove_expired hs.1 t', ?_⟩
  intro e he
  exact le_trans (hs.2 e (mem_expires_remove_expired he)) ht

/-- An element that does not satisfy the predicate survives dropWhile. -/
theorem mem_dropWhile_of_mem {α : Type} {p : α → Bool} {l : List α} {x : α}
    (hx : x ∈ l) (hpx : p x = false) : x ∈ l.dropWhile p := by
  induction l with
  | nil => cases hx
  | cons y tl ih =>
    rcases List.mem_cons.mp hx with rfl | hmem
    · rw [List.dropWhile_cons, hpx]
      simp
    · rw [List.dropWhile_cons]
      by_cases hy : p y
      · simp only [hy, if_pos]
        exact ih hmem
      · simp only [Bool.not_eq_true] at hy
        simp only [hy, Bool.false_eq_true, if_neg, not_false_iff]
        exact List.mem_cons_of_mem _ hmem

/-- On an insertion-sorted FIFO the head-truncating scan removes
exactly the expired entries. -/
theorem dropWhile_expired_eq_filter {l : List ItemExpiration} {t : Nat}
    (hs : l.Pairwise (fun a b => a.inserted ≤ b.inserted)) :
    l.dropWhile (fun i => i.is_expired t) = l.filter (fun i => !(i.is_expired t)) := by
  induction l with
  | nil => rfl
  | cons e tl ih =>
    have hhead := (List.pairwise_cons.mp hs).1
    have htl := (List.pairwise_cons.mp hs).2
    rw [List.dropWhile_cons, List.filter_cons]
    by_cases he : e.is_expired t
    · simp only [he, if_pos, Bool.not_true, Bool.false_eq_true, if_neg, not_false_iff]
      exact ih htl
    · simp only [Bool.not_eq_true] at he
      have hfil : tl.filter (fun i => !(i.is_expired t)) = tl := by
        apply List.filter_eq_self.mpr
        intro x hx
        have h1 : e.inserted ≤ x.inserted := hhead x hx
        simp only [ItemExpiration.is_expired, EXPIRATION_TIME_eq,
          decide_eq_false_iff_not, not_le] at he
        simp only [ItemExpiration.is_expired, EXPIRATION_TIME_eq,
          Bool.not_eq_eq_eq_not, Bool.not_true, decide_eq_false_iff_not, not_le]
        omega
      simp [he, hfil]


/-- insert_contact, characterized by whether the pair is stored and
whether the FIFO has room. -/
theorem insert_contact_spec (s : AnnounceStorage) (item : AnnounceItem)
    (hok : BucketsOk s.storage) (hnd : KeysNodup s.storage) :
    (item.expiration.key ∈ stoKeys s.storage →
        s.insert_contact item = (some true, s)) ∧
    (item.expiration.key ∉ stoKeys s.storage →
        s.expires.length < MAX_ITEMS_STORED →
        s.insert_contact item = (some false,
          { s with storage := mapEntryPush s.storage item.expiration.info_hash item })) ∧
    (item.expiration.key ∉ stoKeys s.storage →
        ¬(s.expires.length < MAX_ITEMS_STORED) →
        s.insert_contact item = (none, s)) := by
  have hiff := @already_in_list_iff s.storage item.expiration hok hnd
  refine ⟨?_, ?_, ?_⟩
  · intro hmem
    have hb : (match mapGet s.storage item.expiration.info_hash with
        | some items => items.any (fun a => a.expiration.keyEq item.expiration)
        | none => false) = true := hiff.mpr hmem
    simp only [AnnounceStorage.insert_contact]
    rw [hb]
    cases hdec : decide (s.expires.length < MAX_ITEMS_STORED) <;> rfl
  · intro hmem hroom
    have hb : (match mapGet s.storage item.expiration.info_hash with
        | some items => items.any (fun a => a.expiration.keyEq item.expiration)
        | none => false) = false := by
      cases hb2 : (match mapGet s.storage item.expiration.info_hash with
        | some items => items.any (fun a => a.expiration.keyEq item.expiration)
        | none => false) with
      | false => rfl
      | true => exact absurd (hiff.mp hb2) hmem
    simp only [AnnounceStorage.insert_contact]
    rw [hb, decide_eq_true hroom]
  · intro hmem hroom
    have hb : (match mapGet s.storage item.expiration.info_hash with
        | some items => items.any (fun a => a.expiration.keyEq item.expiration)
        | none => false) = false := by
      cases hb2 : (match mapGet s.storage item.expiration.info_hash with
        | some items => items.any (fun a => a.expiration.keyEq item.expiration)
        | none => false) with
      | false => rfl
      | true => exact absurd (hiff.mp hb2) hmem
    simp only [AnnounceStorage.insert_contact]
    rw [hb, decide_eq_false hroom]

/-- add, characterized on the pruned state: renewal, insertion, and
refusal. -/
theorem add_spec (s : AnnounceStorage) (h : InfoHash) (a : SocketAddr) (t : Nat)
    (hinv1 : Inv (s.remove_expired_items t)) :
    ((a, h) ∈ stoKeys (s.remove_expired_items t).storage →
        s.add h a t = (true,
          { s.remove_expired_items t with
            expires := (s.remove_expired_items t).expires.filter
                (fun i => !(i.keyEq ⟨a, t, h⟩)) ++ [⟨a, t, h⟩] })) ∧
    ((a, h) ∉ stoKeys (s.remove_expired_items t).storage →
        (s.remove_expired_items t).expires.length < MAX_ITEMS_STORED →
        s.add h a t = (true,
          { storage := mapEntryPush (s.remove_expired_items t).storage h
              (AnnounceItem.new h a t)
            expires := (s.remove_expired_items t).expires ++ [⟨a, t, h⟩] })) ∧
    ((a, h) ∉ stoKeys (s.remove_expired_items t).storage →
        ¬((s.remove_expired_items t).expires.length < MAX_ITEMS_STORED) →
        s.add h a t = (false, s.remove_expired_items t)) := by
  obtain ⟨hic1, hic2, hic3⟩ := insert_contact_spec (s.remove_expired_items t)
    (AnnounceItem.new h a t) hinv1.buck hinv1.keys
  have hkey : (AnnounceItem.new h a t).expiration.key = (a, h) := rfl
  refine ⟨?_, ?_, ?_⟩
  · intro hmem
    have h1 := hic1 (by rw [hkey]; exact hmem)
    simp only [AnnounceStorage.add]
    rw [h1]
    rfl
  · intro hmem hroom
    have h1 := hic2 (by rw [hkey]; exact hmem) hroom
    simp only [AnnounceStorage.add]
    rw [h1]
    rfl
  · intro hmem hroom
    have h1 := hic3 (by rw [hkey]; exact hmem) hroom
    simp only [AnnounceStorage.add]
    rw [h1]


theorem length_filter_lt_of_mem {l : List ItemExpiration} {e : ItemExpiration}
    (hmem : e.key ∈ l.map ItemExpiration.key) :
    (l.filter (fun i => !(i.keyEq e))).length < l.length := by
  obtain ⟨i, hi, hik⟩ := List.mem_map.mp hmem
  clear hmem
  induction l with
  | nil => cases hi
  | cons x tl ih =>
    rw [List.filter_cons]
    rcases List.mem_cons.mp hi with rfl | hmem'
    · have hx : i.keyEq e = true := (ItemExpiration.keyEq_iff _ _).mpr hik
      simp only [hx, Bool.not_true, Bool.false_eq_true, if_neg, not_false_iff,
        List.length_cons]
      exact Nat.lt_succ_of_le (List.length_filter_le _ _)
    · by_cases hx : x.keyEq e
      · simp only [hx, Bool.not_true, Bool.false_eq_true, if_neg, not_false_iff,
          List.length_cons]
        exact Nat.lt_succ_of_le (List.length_filter_le _ _)
      · simp only [Bool.not_eq_true] at hx
        simp only [hx, Bool.not_false, if_pos, List.length_cons]
        exact Nat.succ_lt_succ (ih hmem')

theorem perm_cons_filter_of_nodup {l : List (SocketAddr × InfoHash)}
    {k : SocketAddr × InfoHash} (hnd : l.Nodup) (hmem : k ∈ l) :
    List.Perm (k :: l.filter (fun x => !(x == k))) l := by
  induction l with
  | nil => cases hmem
  | cons x tl ih =>
    rcases List.mem_cons.mp hmem with rfl | hmem'
    · have hfil : tl.filter (fun y => !(y == k)) = tl := by
        apply List.filter_eq_self.mpr
        intro y hy
        simp only [Bool.not_eq_eq_eq_not, Bool.not_true, beq_eq_false_iff_ne, ne_eq]
        intro he
        exact (List.nodup_cons.mp hnd).1 (he ▸ hy)
      rw [List.filter_cons]
      simp only [beq_self_eq_true, Bool.not_true, Bool.false_eq_true, if_neg,
        not_false_iff]
      rw [hfil]
    · have hx : (x == k) = false := by
        simp only [beq_eq_false_iff_ne, ne_eq]
        intro he
        exact (List.nodup_cons.mp hnd).1 (he ▸ hmem')
      rw [List.filter_cons]
      simp only [hx, Bool.not_false, if_pos]
      have hperm := ih (List.nodup_cons.mp hnd).2 hmem'
      exact (List.Perm.swap x k _).trans (List.Perm.cons x hperm)

theorem invAt_add {s : AnnounceStorage} {t t' : Nat} {h : InfoHash} {a : SocketAddr}
    (hs : InvAt s t) (ht : t ≤ t') : InvAt ((s.add h a t').2) t' := by
  obtain ⟨hinv1, hbound1⟩ := invAt_remove_expired hs ht
  obtain ⟨hspec1, hspec2, hspec3⟩ := add_spec s h a t' hinv1
  by_cases hmem : (a, h) ∈ stoKeys (s.remove_expired_items t').storage
  · -- renewal: the expiration is moved to the tail
    rw [hspec1 hmem]
    obtain ⟨hok, hnd, hperm, huq, hsort, hcap⟩ := hinv1
    have hfk : ((s.remove_expired_items t').expires.filter
          (fun i => !(i.keyEq ⟨a, t', h⟩))).map ItemExpiration.key
        = (expKeys (s.remove_expired_items t')).filter (fun x => !(x == (a, h))) :=
      map_key_filter_keyEq_exp _ _
    have hmemExp : (a, h) ∈ expKeys (s.remove_expired_items t') :=
      hperm.mem_iff.mpr hmem
    constructor
    constructor
    · exact hok
    · exact hnd
    · -- perm after moving the pair to the tail
      show List.Perm
        ((((s.remove_expired_items t').expires.filter
            (fun i => !(i.keyEq ⟨a, t', h⟩))) ++ [(⟨a, t', h⟩ : ItemExpiration)]).map
              ItemExpiration.key)
        (stoKeys (s.remove_expired_items t').storage)
      rw [List.map_append, hfk]
      have hstep1 : List.Perm
          ((expKeys (s.remove_expired_items t')).filter (fun x => !(x == (a, h)))
            ++ ([((⟨a, t', h⟩ : ItemExpiration)).key]))
          ((a, h) :: (expKeys (s.remove_expired_items t')).filter
            (fun x => !(x == (a, h)))) := List.perm_append_singleton _ _
      have hstep2 : List.Perm
          ((a, h) :: (expKeys (s.remove_expired_items t')).filter
            (fun x => !(x == (a, h))))
          (expKeys (s.remove_expired_items t')) := by
        exact perm_cons_filter_of_nodup huq hmemExp
      exact (hstep1.trans hstep2).trans hperm
    · -- nodup after moving the pair to the tail
      show (((((s.remove_expired_items t').expires.filter
          (fun i => !(i.keyEq ⟨a, t', h⟩))) ++ [(⟨a, t', h⟩ : ItemExpiration)])).map
            ItemExpiration.key).Nodup
      rw [List.map_append, hfk]
      apply List.Nodup.append
      · exact huq.filter _
      · exact List.nodup_singleton _
      · intro x hx hx2
        rcases List.mem_singleton.mp hx2 with rfl
        have := (List.mem_filter.mp hx).2
        simp only [Bool.not_eq_eq_eq_not, Bool.not_true, beq_eq_false_iff_ne,
          ne_eq] at this
        exact this rfl
    · -- still sorted: the new tail instant dominates
      apply List.pairwise_append.mpr
      refine ⟨hsort.filter _, List.pairwise_singleton _ _, ?_⟩
      intro x hx y hy
      rcases List.mem_singleton.mp hy with rfl
      exact hbound1 x (List.mem_of_mem_filter hx)
    · -- capacity: one entry was removed, one added
      show (((s.remove_expired_items t').expires.filter
          (fun i => !(i.keyEq ⟨a, t', h⟩))) ++ [(⟨a, t', h⟩ : ItemExpiration)]).length
          ≤ MAX_ITEMS_STORED
      rw [List.length_append, List.length_singleton]
      have hlt : ((s.remove_expired_items t').expires.filter
          (fun i => !(i.keyEq ⟨a, t', h⟩))).length
          < (s.remove_expired_items t').expires.length := by
        apply length_filter_lt_of_mem
        exact hmemExp
      omega
    · -- insertion bound
      intro e he
      rcases List.mem_append.mp he with he1 | he2
      · exact hbound1 e (List.mem_of_mem_filter he1)
      · rcases List.mem_singleton.mp he2 with rfl
        exact le_refl t'
  · by_cases hroom : (s.remove_expired_items t').expires.length < MAX_ITEMS_STORED
    · -- fresh insertion
      rw [hspec2 hmem hroom]
      obtain ⟨hok, hnd, hperm, huq, hsort, hcap⟩ := hinv1
      obtain ⟨hok2, hnd2, hpushed⟩ :=
        @mapEntryPush_eq (s.remove_expired_items t').storage h
          (AnnounceItem.new h a t') hok hnd rfl
      constructor
      constructor
      · exact hok2
      · exact hnd2
      · show List.Perm
          (((s.remove_expired_items t').expires ++ [(⟨a, t', h⟩ : ItemExpiration)]).map
            ItemExpiration.key)
          (stoKeys (mapEntryPush (s.remove_expired_items t').storage h
            (AnnounceItem.new h a t')))
        rw [List.map_append]
        have hks : List.Perm
            (stoKeys (mapEntryPush (s.remove_expired_items t').storage h
              (AnnounceItem.new h a t')))
            (stoKeys (s.remove_expired_items t').storage ++ [(a, h)]) := by
          have := hpushed.map (fun it => it.expiration.key)
          rw [List.map_append] at this
          exact this
        refine List.Perm.trans ?_ hks.symm
        exact List.Perm.append hperm (List.Perm.refl _)
      · show ((((s.remove_expired_items t').expires
            ++ [(⟨a, t', h⟩ : ItemExpiration)])).map ItemExpiration.key).Nodup
        rw [List.map_append]
        apply List.Nodup.append huq (List.nodup_singleton _)
        intro x hx hx2
        rcases List.mem_singleton.mp hx2 with rfl
        exact hmem (hperm.mem_iff.mp hx)
      · apply List.pairwise_append.mpr
        refine ⟨hsort, List.pairwise_singleton _ _, ?_⟩
        intro x hx y hy
        rcases List.mem_singleton.mp hy with rfl
        exact hbound1 x hx
      · show ((s.remove_expired_items t').expires
            ++ [(⟨a, t', h⟩ : ItemExpiration)]).length ≤ MAX_ITEMS_STORED
        rw [List.length_append, List.length_singleton]
        omega
      · intro e he
        rcases List.mem_append.mp he with he1 | he2
        · exact hbound1 e he1
        · rcases List.mem_singleton.mp he2 with rfl
          exact le_refl t'
    · -- refused: state is the pruned state
      rw [hspec3 hmem hroom]
      exact ⟨hinv1, hbound1⟩

theorem invAt_find {s : AnnounceStorage} {t t' : Nat} {h : InfoHash}
    (hs : InvAt s t) (ht : t ≤ t') : InvAt ((s.find h t').2) t' :=
  invAt_remove_expired hs ht

theorem invAt_applyOp {s : AnnounceStorage} {t : Nat} {op : StorageOp × Nat}
    (hs : InvAt s t) (ht : t ≤ op.2) : InvAt (applyOp s op) op.2 := by
  rcases op with ⟨op, u⟩
  cases op with
  | add h a => exact invAt_add hs ht
  | find h => exact invAt_find hs ht

theorem invAt_foldl (ops : List (StorageOp × Nat)) :
    ∀ (s : AnnounceStorage) (t : Nat), InvAt s t →
      List.Chain (fun x y => x ≤ y) t (ops.map Prod.snd) →
      InvAt (ops.foldl applyOp s) ((ops.map Prod.snd).getLastD t) := by
  induction ops with
  | nil =>
    intro s t hs _
    simpa using hs
  | cons op rest ih =>
    intro s t hs hchain
    rw [List.map_cons] at hchain
    rcases hchain with _ | ⟨hle, hchain'⟩
    have h1 : InvAt (applyOp s op) op.2 := invAt_applyOp hs hle
    have h2 := ih (applyOp s op) op.2 h1 hchain'
    rw [List.map_cons, List.getLastD_cons]
    exact h2

theorem invAt_new : InvAt AnnounceStorage.new 0 := by
  refine ⟨⟨?_, ?_, ?_, ?_, ?_, ?_⟩, ?_⟩ <;>
    simp [AnnounceStorage.new, BucketsOk, KeysNodup, expKeys, stoKeys, stoItems,
      MAX_ITEMS_STORED]

/-- The instant of the last call of the sequence. -/
def lastTime (ops : List (StorageOp × Nat)) : Nat := (ops.map Prod.snd).getLastD 0

theorem chain_zero_of_mono {ops : List (StorageOp × Nat)} (h : timesMono ops) :
    List.Chain (fun x y => x ≤ y) 0 (ops.map Prod.snd) := by
  cases hm : ops.map Prod.snd with
  | nil => exact List.Chain.nil
  | cons x l =>
    apply List.Chain.cons (Nat.zero_le x)
    have h2 : List.Chain' (fun x y => x ≤ y) (x :: l) := by
      rw [timesMono, hm] at h
      exact h
    exact h2

/-- Every state reached by a monotonically timed call sequence
satisfies the storage invariant. -/
theorem reachable_invAt (ops : List (StorageOp × Nat)) (hmono : timesMono ops) :
    InvAt (runOps ops) (lastTime ops) :=
  invAt_foldl ops AnnounceStorage.new 0 invAt_new (chain_zero_of_mono hmono)


/-- Executable check that a list of instants is nondecreasing. -/
def monoB : List Nat → Bool
  | [] => true
  | [_] => true
  | x :: y :: rest => decide (x ≤ y) && monoB (y :: rest)

theorem monoB_iff : ∀ l : List Nat, monoB l = true ↔ List.Chain' (· ≤ ·) l
  | [] => by simp [monoB]
  | [x] => by simp [monoB]
  | x :: y :: rest => by
    rw [List.chain'_cons, monoB]
    rw [Bool.and_eq_true, decide_eq_true_eq]
    exact and_congr Iff.rfl (monoB_iff (y :: rest))

instance timesMono_decidable (ops : List (StorageOp × Nat)) :
    Decidable (timesMono ops) :=
  decidable_of_iff (monoB (ops.map Prod.snd) = true) (monoB_iff _)

theorem expires_length_eq_totalPairs {s : AnnounceStorage} (hinv : Inv s) :
    s.expires.length = totalPairs s := by
  have h1 : (expKeys s).length = (stoKeys s.storage).length := hinv.perm.length_eq
  have h2 : (expKeys s).length = s.expires.length := by
    simp [expKeys]
  have h3 : (stoKeys s.storage).length = totalPairs s := by
    simp [stoKeys, totalPairs]
  omega

/-- C1: for every monotonically timed sequence of add_item and
find_items calls from AnnounceStorage::new, the total number of stored
(info_hash, address) pairs after each call is at most 500. Every
observation point is the run of a prefix, and every prefix of a
monotone sequence is monotone, so quantifying over all monotone
sequences covers each observation. -/
theorem claim_C1_announce_cap (ops : List (StorageOp × Nat))
    (hmono : timesMono ops) : totalPairs (runOps ops) ≤ 500 := by
  obtain ⟨hinv, _⟩ := reachable_invAt ops hmono
  have h1 := expires_length_eq_totalPairs hinv
  have h2 := hinv.cap
  rw [show MAX_ITEMS_STORED = 500 from rfl] at h2
  omega

theorem claim_C1_announce_cap_witness :
    timesMono [(StorageOp.add 0 ⟨false, 1, 1⟩, 0), (StorageOp.find 0, 5)] ∧
      totalPairs (runOps [(StorageOp.add 0 ⟨false, 1, 1⟩, 0),
        (StorageOp.find 0, 5)]) ≤ 500 :=
  ⟨by decide, claim_C1_announce_cap _ (by decide)⟩

/-- C9: in every reachable state the FIFO holds exactly one entry per
stored pair, its length is the stored pair count used by the cap
check, it is sorted by ascending insertion instant, and therefore the
head-truncating take-while scan of remove_expired_items removes
exactly the expired entries. -/
theorem claim_C9_fifo_exact (ops : List (StorageOp × Nat))
    (hmono : timesMono ops) :
    (runOps ops).expires.length = totalPairs (runOps ops) ∧
    (expKeys (runOps ops)).Nodup ∧
    List.Perm (expKeys (runOps ops)) (stoKeys (runOps ops).storage) ∧
    (runOps ops).expires.Pairwise (fun a b => a.inserted ≤ b.inserted) ∧
    ∀ t, ((runOps ops).remove_expired_items t).expires
        = (runOps ops).expires.filter (fun i => !(i.is_expired t)) := by
  obtain ⟨hinv, _⟩ := reachable_invAt ops hmono
  refine ⟨expires_length_eq_totalPairs hinv, hinv.uniq, hinv.perm, hinv.sorted, ?_⟩
  intro t
  rw [remove_expired_expires]
  exact dropWhile_expired_eq_filter hinv.sorted

theorem claim_C9_fifo_exact_witness :
    timesMono [(StorageOp.add 0 ⟨false, 1, 1⟩, 0), (StorageOp.add 0 ⟨false, 2, 2⟩, 3)] ∧
      (runOps [(StorageOp.add 0 ⟨false, 1, 1⟩, 0),
          (StorageOp.add 0 ⟨false, 2, 2⟩, 3)]).expires.length
        = totalPairs (runOps [(StorageOp.add 0 ⟨false, 1, 1⟩, 0),
          (StorageOp.add 0 ⟨false, 2, 2⟩, 3)]) := by
  refine ⟨by decide, ?_⟩
  exact (claim_C9_fifo_exact _ (by decide)).1

/-- C3: on any reachable state, re-adding a stored pair returns true
and moves its expiration to the FIFO tail regardless of the cap, a new
pair is inserted and acknowledged below the cap, and a new pair is
refused without change at the cap. -/
theorem claim_C3_add_item (ops : List (StorageOp × Nat)) (hmono : timesMono ops)
    (h : InfoHash) (a : SocketAddr) (t : Nat) (ht : lastTime ops ≤ t) :
    ((a, h) ∈ stoKeys ((runOps ops).remove_expired_items t).storage →
        ((runOps ops).add_item h a t).1 = true ∧
        ((runOps ops).add_item h a t).2.expires
          = ((runOps ops).remove_expired_items t).expires.filter
              (fun i => !(i.keyEq ⟨a, t, h⟩)) ++ [⟨a, t, h⟩]) ∧
    ((a, h) ∉ stoKeys ((runOps ops).remove_expired_items t).storage →
        totalPairs ((runOps ops).remove_expired_items t) < 500 →
        ((runOps ops).add_item h a t).1 = true ∧
        (a, h) ∈ stoKeys ((runOps ops).add_item h a t).2.storage) ∧
    ((a, h) ∉ stoKeys ((runOps ops).remove_expired_items t).storage →
        totalPairs ((runOps ops).remove_expired_items t) = 500 →
        ((runOps ops).add_item h a t).1 = false ∧
        ((runOps ops).add_item h a t).2
          = (runOps ops).remove_expired_items t) := by
  obtain ⟨hinvAt, hbound⟩ := reachable_invAt ops hmono
  have hinv1 : Inv ((runOps ops).remove_expired_items t) :=
    (invAt_remove_expired ⟨hinvAt, hbound⟩ ht).1
  have hlen := expires_length_eq_totalPairs hinv1
  obtain ⟨hspec1, hspec2, hspec3⟩ := add_spec (runOps ops) h a t hinv1
  refine ⟨?_, ?_, ?_⟩
  · intro hmem
    rw [show (runOps ops).add_item h a t = (runOps ops).add h a t from rfl,
      hspec1 hmem]
    exact ⟨rfl, rfl⟩
  · intro hmem hcount
    have hroom : ((runOps ops).remove_expired_items t).expires.length
        < MAX_ITEMS_STORED := by
      rw [show MAX_ITEMS_STORED = 500 from rfl]
      omega
    rw [show (runOps ops).add_item h a t = (runOps ops).add h a t from rfl,
      hspec2 hmem hroom]
    refine ⟨rfl, ?_⟩
    obtain ⟨_, _, hpushed⟩ :=
      @mapEntryPush_eq ((runOps ops).remove_expired_items t).storage h
        (AnnounceItem.new h a t) hinv1.buck hinv1.keys rfl
    have hkeysPerm := hpushed.map (fun it => it.expiration.key)
    apply (List.Perm.mem_iff hkeysPerm).mpr
    rw [List.map_append]
    apply List.mem_append_right
    simp [ItemExpiration.key, AnnounceItem.new]
  · intro hmem hcount
    have hroom : ¬(((runOps ops).remove_expired_items t).expires.length
        < MAX_ITEMS_STORED) := by
      rw [show MAX_ITEMS_STORED = 500 from rfl]
      omega
    rw [show (runOps ops).add_item h a t = (runOps ops).add h a t from rfl,
      hspec3 hmem hroom]
    exact ⟨rfl, rfl⟩

theorem claim_C3_add_item_witness :
    (⟨false, 1, 1⟩, (0 : Nat)) ∈ stoKeys
        ((runOps [(StorageOp.add 0 ⟨false, 1, 1⟩, 0)]).remove_expired_items 5).storage ∧
      ((runOps [(StorageOp.add 0 ⟨false, 1, 1⟩, 0)]).add_item 0 ⟨false, 1, 1⟩ 5).1
        = true := by
  refine ⟨by decide, ?_⟩
  exact ((claim_C3_add_item [(StorageOp.add 0 ⟨false, 1, 1⟩, 0)] (by decide)
    0 ⟨false, 1, 1⟩ 5 (by decide)).1 (by decide)).1


-- ----------------------------------------------------------------------------
-- Expiration and renewal of announce pairs (C4)
-- ----------------------------------------------------------------------------

theorem insert_contact_expires (s : AnnounceStorage) (item : AnnounceItem) :
    (s.insert_contact item).2.expires = s.expires := by
  simp only [AnnounceStorage.insert_contact]
  cases (match mapGet s.storage item.expiration.info_hash with
      | some items => items.any (fun a => a.expiration.keyEq item.expiration)
      | none => false) <;>
    cases decide (s.expires.length < MAX_ITEMS_STORED) <;> rfl

/-- The FIFO after add is one of: renewal, fresh push, or unchanged
pruned FIFO. -/
theorem add_expires_cases (s : AnnounceStorage) (h : InfoHash) (a : SocketAddr)
    (t : Nat) :
    (s.add h a t).2.expires
        = (s.remove_expired_items t).expires.filter
            (fun i => !(i.keyEq ⟨a, t, h⟩)) ++ [⟨a, t, h⟩] ∨
    (s.add h a t).2.expires = (s.remove_expired_items t).expires ++ [⟨a, t, h⟩] ∨
    (s.add h a t).2.expires = (s.remove_expired_items t).expires := by
  rcases hres : (s.remove_expired_items t).insert_contact (AnnounceItem.new h a t)
    with ⟨ob, s2⟩
  have hexp : s2.expires = (s.remove_expired_items t).expires := by
    have := insert_contact_expires (s.remove_expired_items t) (AnnounceItem.new h a t)
    rw [hres] at this
    exact this
  match ob with
  | some true =>
    left
    simp only [AnnounceStorage.add, hres, hexp]
    rfl
  | some false =>
    right; left
    simp only [AnnounceStorage.add, hres, hexp]
    rfl
  | none =>
    right; right
    simp only [AnnounceStorage.add, hres, hexp]

/-- Insertion instants of FIFO entries for one pair: every entry for
the pair carries the instant of an add call for that pair. -/
def pairTimes (s : AnnounceStorage) (a : SocketAddr) (h : InfoHash) (t : Nat) : Prop :=
  ∀ e ∈ s.expires, e.key = (a, h) → e.inserted = t

theorem pairTimes_remove_expired {s : AnnounceStorage} {a : SocketAddr}
    {h : InfoHash} {t u : Nat} (hP : pairTimes s a h t) :
    pairTimes (s.remove_expired_items u) a h t := by
  intro e he hk
  exact hP e (mem_expires_remove_expired he) hk

theorem pairTimes_applyOp {s : AnnounceStorage} {a : SocketAddr} {h : InfoHash}
    {t : Nat} {op : StorageOp × Nat} (hP : pairTimes s a h t)
    (hop : op.1 = StorageOp.add h a → op.2 = t) :
    pairTimes (applyOp s op) a h t := by
  rcases op with ⟨op, u⟩
  cases op with
  | find h' => exact pairTimes_remove_expired hP
  | add h' a' =>
    have hP1 : pairTimes (s.remove_expired_items u) a h t :=
      pairTimes_remove_expired hP
    rcases add_expires_cases s h' a' u with hc | hc | hc
    all_goals intro e he hk
    · rw [show applyOp s (StorageOp.add h' a', u) = (s.add h' a' u).2 from rfl,
        hc] at he
      rcases List.mem_append.mp he with he1 | he2
      · exact hP1 e (List.mem_of_mem_filter he1) hk
      · rcases List.mem_singleton.mp he2 with rfl
        have hpair : (a', h') = (a, h) := hk
        have ha : a' = a := congrArg Prod.fst hpair
        have hh : h' = h := congrArg Prod.snd hpair
        exact hop (by rw [ha, hh])
    · rw [show applyOp s (StorageOp.add h' a', u) = (s.add h' a' u).2 from rfl,
        hc] at he
      rcases List.mem_append.mp he with he1 | he2
      · exact hP1 e he1 hk
      · rcases List.mem_singleton.mp he2 with rfl
        have hpair : (a', h') = (a, h) := hk
        have ha : a' = a := congrArg Prod.fst hpair
        have hh : h' = h := congrArg Prod.snd hpair
        exact hop (by rw [ha, hh])
    · rw [show applyOp s (StorageOp.add h' a', u) = (s.add h' a' u).2 from rfl,
        hc] at he
      exact hP1 e he hk

theorem pairTimes_foldl (ops : List (StorageOp × Nat)) :
    ∀ (s : AnnounceStorage) (a : SocketAddr) (h : InfoHash) (t : Nat),
      pairTimes s a h t → (∀ p ∈ ops, p.1 = StorageOp.add h a → p.2 = t) →
      pairTimes (ops.foldl applyOp s) a h t := by
  induction ops with
  | nil => intro s a h t hP _; simpa using hP
  | cons op rest ih =>
    intro s a h t hP hops
    have h1 : pairTimes (applyOp s op) a h t :=
      pairTimes_applyOp hP (hops op (List.mem_cons_self _ _))
    have h2 := ih (applyOp s op) a h t h1 (fun p hp => hops p (List.mem_cons_of_mem _ hp))
    simpa using h2

/-- All add calls of the pair in the sequence happen at instant t. -/
def addsPairOnlyAt (ops : List (StorageOp × Nat)) (h : InfoHash) (a : SocketAddr)
    (t : Nat) : Prop :=
  ∀ p ∈ ops, p.1 = StorageOp.add h a → p.2 = t


/-- The pair has a live FIFO entry renewed no earlier than t. -/
def aliveSince (s : AnnounceStorage) (a : SocketAddr) (h : InfoHash) (t : Nat) : Prop :=
  ∃ e, e ∈ s.expires ∧ e.key = (a, h) ∧ t ≤ e.inserted

theorem alive_remove_expired {s : AnnounceStorage} {a : SocketAddr} {h : InfoHash}
    {t u : Nat} (halive : aliveSince s a h t) (hu : u < t + EXPIRATION_TIME) :
    aliveSince (s.remove_expired_items u) a h t := by
  obtain ⟨e, he, hk, hins⟩ := halive
  refine ⟨e, ?_, hk, hins⟩
  rw [remove_expired_expires]
  apply mem_dropWhile_of_mem he
  simp only [ItemExpiration.is_expired, EXPIRATION_TIME_eq, decide_eq_false_iff_not,
    not_le]
  rw [EXPIRATION_TIME_eq] at hu
  omega

theorem alive_mem_expKeys {s : AnnounceStorage} {a : SocketAddr} {h : InfoHash}
    {t : Nat} (halive : aliveSince s a h t) : (a, h) ∈ expKeys s := by
  obtain ⟨e, he, hk, _⟩ := halive
  rw [← hk]
  exact List.mem_map_of_mem ItemExpiration.key he

theorem alive_applyOp {s : AnnounceStorage} {a : SocketAddr} {h : InfoHash}
    {t u : Nat} {op : StorageOp × Nat} (hs : InvAt s u)
    (halive : aliveSince s a h t) (hle : u ≤ op.2)
    (hlt : op.2 < t + EXPIRATION_TIME) : aliveSince (applyOp s op) a h t := by
  rcases op with ⟨op, u'⟩
  cases op with
  | find h' => exact alive_remove_expired halive hlt
  | add h' a' =>
    have hinv1 : InvAt (s.remove_expired_items u') u' := invAt_remove_expired hs hle
    have halive1 : aliveSince (s.remove_expired_items u') a h t :=
      alive_remove_expired halive hlt
    obtain ⟨hspec1, hspec2, hspec3⟩ := add_spec s h' a' u' hinv1.1
    show aliveSince ((s.add h' a' u').2) a h t
    by_cases hpair : (a', h') = (a, h)
    · -- renewal of the very pair: a fresh tail entry appears
      have hmem : (a', h') ∈ stoKeys (s.remove_expired_items u').storage := by
        rw [hpair]
        exact hinv1.1.perm.mem_iff.mp (alive_mem_expKeys halive1)
      rw [hspec1 hmem]
      refine ⟨⟨a', u', h'⟩, ?_, hpair, ?_⟩
      · apply List.mem_append_right
        exact List.mem_singleton.mpr rfl
      · obtain ⟨e, he, hk, hins⟩ := halive1
        exact le_trans hins (hinv1.2 e he)
    · by_cases hmem : (a', h') ∈ stoKeys (s.remove_expired_items u').storage
      · rw [hspec1 hmem]
        obtain ⟨e, he, hk, hins⟩ := halive1
        refine ⟨e, ?_, hk, hins⟩
        apply List.mem_append_left
        apply List.mem_filter.mpr
        refine ⟨he, ?_⟩
        simp only [Bool.not_eq_eq_eq_not, Bool.not_true]
        rcases hkeq : e.keyEq ⟨a', u', h'⟩ with _ | _
        · rfl
        · have : e.key = ((⟨a', u', h'⟩ : ItemExpiration)).key :=
            (ItemExpiration.keyEq_iff _ _).mp hkeq
          rw [hk] at this
          exact absurd this.symm hpair
      · by_cases hroom : (s.remove_expired_items u').expires.length < MAX_ITEMS_STORED
        · rw [hspec2 hmem hroom]
          obtain ⟨e, he, hk, hins⟩ := halive1
          exact ⟨e, List.mem_append_left _ he, hk, hins⟩
        · rw [hspec3 hmem hroom]
          exact halive1

theorem alive_foldl (ops : List (StorageOp × Nat)) :
    ∀ (s : AnnounceStorage) (u t : Nat) (a : SocketAddr) (h : InfoHash),
      InvAt s u → aliveSince s a h t →
      List.Chain (fun x y => x ≤ y) u (ops.map Prod.snd) →
      (∀ p ∈ ops, p.2 < t + EXPIRATION_TIME) →
      aliveSince (ops.foldl applyOp s) a h t ∧
        InvAt (ops.foldl applyOp s) ((ops.map Prod.snd).getLastD u) := by
  induction ops with
  | nil =>
    intro s u t a h hs halive _ _
    exact ⟨halive, by simpa using hs⟩
  | cons op rest ih =>
    intro s u t a h hs halive hchain hbelow
    rw [List.map_cons] at hchain
    rcases hchain with _ | ⟨hle, hchain'⟩
    have h1 : aliveSince (applyOp s op) a h t :=
      alive_applyOp hs halive hle (hbelow op (List.mem_cons_self _ _))
    have h2 : InvAt (applyOp s op) op.2 := invAt_applyOp hs hle
    have h3 := ih (applyOp s op) op.2 t a h h2 h1 hchain'
      (fun p hp => hbelow p (List.mem_cons_of_mem _ hp))
    rw [List.map_cons, List.getLastD_cons]
    exact h3

theorem alive_of_add_true {s : AnnounceStorage} {a : SocketAddr} {h : InfoHash}
    {t u : Nat} (hs : InvAt s u) (hu : u ≤ t)
    (hres : (s.add h a t).1 = true) : aliveSince ((s.add h a t).2) a h t := by
  have hinv1 : InvAt (s.remove_expired_items t) t := invAt_remove_expired hs hu
  obtain ⟨hspec1, hspec2, hspec3⟩ := add_spec s h a t hinv1.1
  by_cases hmem : (a, h) ∈ stoKeys (s.remove_expired_items t).storage
  · rw [hspec1 hmem]
    exact ⟨⟨a, t, h⟩, List.mem_append_right _ (List.mem_singleton.mpr rfl), rfl,
      le_refl t⟩
  · by_cases hroom : (s.remove_expired_items t).expires.length < MAX_ITEMS_STORED
    · rw [hspec2 hmem hroom]
      exact ⟨⟨a, t, h⟩, List.mem_append_right _ (List.mem_singleton.mpr rfl), rfl,
        le_refl t⟩
    · rw [hspec3 hmem hroom] at hres
      cases hres

theorem alive_find {s : AnnounceStorage} {a : SocketAddr} {h : InfoHash}
    {t u T : Nat} (hs : InvAt s u) (halive : aliveSince s a h t) (huT : u ≤ T)
    (hT : T < t + EXPIRATION_TIME) : a ∈ (s.find_items h T).1 := by
  have hinv1 : InvAt (s.remove_expired_items T) T := invAt_remove_expired hs huT
  have halive1 := alive_remove_expired halive hT
  have hmem : (a, h) ∈ stoKeys (s.remove_expired_items T).storage :=
    hinv1.1.perm.mem_iff.mp (alive_mem_expKeys halive1)
  exact (mem_findList hinv1.1.buck hinv1.1.keys).mpr hmem

theorem chain_snoc {x y : Nat} {l : List Nat}
    (h : List.Chain (fun p q => p ≤ q) x (l ++ [y])) :
    List.Chain (fun p q => p ≤ q) x l ∧ l.getLastD x ≤ y := by
  induction l generalizing x with
  | nil =>
    rcases h with _ | ⟨hle, _⟩
    exact ⟨List.Chain.nil, hle⟩
  | cons z l ih =>
    rcases h with _ | ⟨hle, h'⟩
    obtain ⟨hc, hlast⟩ := ih h'
    exact ⟨List.Chain.cons hle hc, by rw [List.getLastD_cons]; exact hlast⟩


instance addsPairOnlyAt_decidable (ops : List (StorageOp × Nat)) (h : InfoHash)
    (a : SocketAddr) (t : Nat) : Decidable (addsPairOnlyAt ops h a t) :=
  inferInstanceAs (Decidable (∀ p ∈ ops, p.1 = StorageOp.add h a → p.2 = t))

/-- Expiry: a pair only ever added at instant t is not served at or
after t plus the expiration time. -/
theorem announce_expiry_aux (ops : List (StorageOp × Nat)) (h : InfoHash)
    (a : SocketAddr) (t T : Nat) (hmono : timesMono ops)
    (honly : addsPairOnlyAt ops h a t) (hT1 : t + EXPIRATION_TIME ≤ T)
    (hT2 : lastTime ops ≤ T) : a ∉ ((runOps ops).find_items h T).1 := by
  obtain ⟨hinv, hbound⟩ := reachable_invAt ops hmono
  have hP : pairTimes (runOps ops) a h t := by
    apply pairTimes_foldl ops AnnounceStorage.new a h t
    · intro e he
      cases he
    · exact honly
  intro hmemFind
  have hinv1 : InvAt ((runOps ops).remove_expired_items T) T :=
    invAt_remove_expired ⟨hinv, hbound⟩ hT2
  have hmem : (a, h) ∈ stoKeys ((runOps ops).remove_expired_items T).storage :=
    (mem_findList hinv1.1.buck hinv1.1.keys).mp hmemFind
  have hmemE : (a, h) ∈ expKeys ((runOps ops).remove_expired_items T) :=
    hinv1.1.perm.mem_iff.mpr hmem
  obtain ⟨e, he, hk⟩ := List.mem_map.mp hmemE
  have hins : e.inserted = t := hP e (mem_expires_remove_expired he) hk
  have hfil : ((runOps ops).remove_expired_items T).expires
      = (runOps ops).expires.filter (fun i => !(i.is_expired T)) := by
    rw [remove_expired_expires]
    exact dropWhile_expired_eq_filter hinv.sorted
  rw [hfil] at he
  have hnotexp := (List.mem_filter.mp he).2
  simp only [ItemExpiration.is_expired, EXPIRATION_TIME_eq, hins,
    Bool.not_eq_eq_eq_not, Bool.not_true, decide_eq_false_iff_not, not_le] at hnotexp
  rw [EXPIRATION_TIME_eq] at hT1
  omega

/-- Renewal: after an acknowledged add of the pair at instant t, any
find before t plus the expiration time still serves the pair, whatever
other calls happen in between. -/
theorem announce_renewal_aux (pre rest : List (StorageOp × Nat)) (h : InfoHash)
    (a : SocketAddr) (t T : Nat)
    (hmono : timesMono (pre ++ (StorageOp.add h a, t) :: rest))
    (hsucc : ((runOps pre).add_item h a t).1 = true)
    (hrest : ∀ p ∈ rest, p.2 ≤ T) (htT : t ≤ T)
    (hTlt : T < t + EXPIRATION_TIME) :
    a ∈ ((runOps (pre ++ (StorageOp.add h a, t) :: rest)).find_items h T).1 := by
  have hchain0 := chain_zero_of_mono hmono
  rw [List.map_append, List.map_cons] at hchain0
  obtain ⟨hchainPre, hchainRest⟩ := List.chain_split.mp hchain0
  obtain ⟨hchainPre', hlastPre⟩ := chain_snoc hchainPre
  have hinvPre : InvAt (runOps pre) (lastTime pre) :=
    invAt_foldl pre AnnounceStorage.new 0 invAt_new hchainPre'
  have hs' : InvAt ((runOps pre).add h a t).2 t := invAt_add hinvPre hlastPre
  have halive : aliveSince ((runOps pre).add h a t).2 a h t :=
    alive_of_add_true hinvPre hlastPre hsucc
  obtain ⟨haliveF, hinvF⟩ := alive_foldl rest ((runOps pre).add h a t).2 t t a h
    hs' halive hchainRest (fun p hp => lt_of_le_of_lt (hrest p hp) hTlt)
  have hfold : runOps (pre ++ (StorageOp.add h a, t) :: rest)
      = rest.foldl applyOp ((runOps pre).add h a t).2 := by
    rw [runOps, List.foldl_append]
    rfl
  rw [hfold]
  have hlastF : (rest.map Prod.snd).getLastD t ≤ T := by
    have hmem := List.getLastD_mem_cons (rest.map Prod.snd) t
    rcases List.mem_cons.mp hmem with heq | hmem'
    · rw [heq]
      exact htT
    · obtain ⟨p, hp, hpt⟩ := List.mem_map.mp hmem'
      rw [← hpt]
      exact hrest p hp
  exact alive_find hinvF haliveF hlastF hTlt

/-- C4 (amended): expiry holds as claimed: a pair first added at t and
never re-added is absent from find_items at or after t + 24h. The
renewal half holds once the add at the later instant is acknowledged
(returns true): the pair is then served at every observation until 24h
after that add. As stated, the renewal half fails when the later add
is refused or the pair expired before it, as the counterexample
shows. -/
theorem claim_C4_expiry_renewal :
    (∀ (ops : List (StorageOp × Nat)) (h : InfoHash) (a : SocketAddr) (t T : Nat),
        timesMono ops → addsPairOnlyAt ops h a t → t + EXPIRATION_TIME ≤ T →
        lastTime ops ≤ T → a ∉ ((runOps ops).find_items h T).1) ∧
    (∀ (pre rest : List (StorageOp × Nat)) (h : InfoHash) (a : SocketAddr) (t T : Nat),
        timesMono (pre ++ (StorageOp.add h a, t) :: rest) →
        ((runOps pre).add_item h a t).1 = true →
        (∀ p ∈ rest, p.2 ≤ T) → t ≤ T → T < t + EXPIRATION_TIME →
        a ∈ ((runOps (pre ++ (StorageOp.add h a, t) :: rest)).find_items h T).1) :=
  ⟨fun ops h a t T hmono honly hT1 hT2 =>
      announce_expiry_aux ops h a t T hmono honly hT1 hT2,
    fun pre rest h a t T hmono hsucc hrest htT hTlt =>
      announce_renewal_aux pre rest h a t T hmono hsucc hrest htT hTlt⟩

/-- C4 counterexample to the claim as stated: in the monotone call
sequence add(h,a) at 0, find(h) at 86400, add(h,a) at 86401, add_item
is called at instants 0 < 86401, the observation at 86400 lies before
86401 + 24h, yet it does not yield the address: the pair expired
before the second add. -/
theorem claim_C4_counterexample :
    timesMono [(StorageOp.add 0 ⟨false, 1, 1⟩, 0), (StorageOp.find 0, 86400),
        (StorageOp.add 0 ⟨false, 1, 1⟩, 86401)] ∧
    (0 : Nat) < 86401 ∧ 86400 < 86401 + EXPIRATION_TIME ∧
    ((runOps [(StorageOp.add 0 ⟨false, 1, 1⟩, 0)]).find_items 0 86400).1 = [] := by
  decide

theorem claim_C4_witness :
    ((⟨false, 1, 1⟩ : SocketAddr)
        ∉ ((runOps [(StorageOp.add 0 ⟨false, 1, 1⟩, 0)]).find_items 0 86400).1) ∧
    ((⟨false, 1, 1⟩ : SocketAddr)
        ∈ ((runOps ([] ++ (StorageOp.add 0 ⟨false, 1, 1⟩, 0) :: [])).find_items 0 5).1) := by
  constructor
  · exact claim_C4_expiry_renewal.1 [(StorageOp.add 0 ⟨false, 1, 1⟩, 0)] 0
      ⟨false, 1, 1⟩ 0 86400 (by decide) (by decide) (by decide) (by decide)
  · exact claim_C4_expiry_renewal.2 [] [] 0 ⟨false, 1, 1⟩ 0 5 (by decide)
      (by decide) (by decide) (by decide) (by decide)


-- ----------------------------------------------------------------------------
-- Routing table, transactions, messages, tokens (externals of handler.rs)
-- ----------------------------------------------------------------------------

/-- Modelled from the spec: node health classification (routing/node.rs
is not under src). -/
inductive NodeStatus
  | good
  | questionable
  | bad
deriving DecidableEq, Repr

/-- Modelled from the spec: a node is identified by id and address. -/
structure NodeHandle where
  id : NodeId
  addr : SocketAddr
deriving DecidableEq, Repr

/-- Modelled from the spec: a routing table entry wraps a handle plus
health metadata. The derived status is kept as a field because its
timestamp derivation lives outside the handler. -/
structure Node where
  handle : NodeHandle
  status : NodeStatus
  remote_seen : Bool
  pending_request : Bool
deriving DecidableEq, Repr

def Node.addr (n : Node) : SocketAddr := n.handle.addr

def Node.id (n : Node) : NodeId := n.handle.id

/-- Modelled from the spec: remote_request records unsolicited traffic
from the node; the handle is untouched. -/
def Node.remote_request (n : Node) : Node := { n with remote_seen := true }

/-- Modelled from the spec: local_request starts a pending outbound
request; the handle is untouched. -/
def Node.local_request (n : Node) : Node := { n with pending_request := true }

/-- Modelled from the spec: the routing table owns the local id and up
to 160 x 8 nodes; buckets are abstracted to the node list, in which no
two nodes share a handle. -/
structure RoutingTable where
  node_id : NodeId
  nodes : List Node
deriving DecidableEq, Repr

/-- find_node_mut followed by a status update f on the found node:
the node with the handle is updated in place, absent handles are a
no-op. -/
def RoutingTable.find_node_update (t : RoutingTable) (h : NodeHandle)
    (f : Node → Node) : RoutingTable :=
  { t with nodes := t.nodes.map (fun n => if n.handle = h then f n else n) }

/-- Modelled from the spec: bucket count of the routing table
(table::MAX_BUCKETS). -/
def MAX_BUCKETS : Nat := 160

/-- Modelled from the spec: flip_bit i inverts bit i of a 160-bit id,
bit 0 being the most significant. -/
def flip_bit (id : NodeId) (i : Nat) : NodeId := Nat.xor id (2 ^ (159 - i))

def statusRank : NodeStatus → Nat
  | .good => 0
  | .questionable => 1
  | .bad => 2

def xorDist (x y : NodeId) : Nat := Nat.xor x y

def nodeCloser (target : NodeId) (n1 n2 : Node) : Bool :=
  statusRank n1.status < statusRank n2.status ||
    (statusRank n1.status == statusRank n2.status &&
      xorDist n1.id target ≤ xorDist n2.id target)

def insertSorted (le : Node → Node → Bool) (n : Node) : List Node → List Node
  | [] => [n]
  | x :: rest => if le n x then n :: x :: rest else x :: insertSorted le n rest

def sortNodes (le : Node → Node → Bool) : List Node → List Node
  | [] => []
  | x :: rest => insertSorted le x (sortNodes le rest)

/-- Modelled from the spec: closest_nodes yields Good nodes before
Questionable before Bad and within each class by ascending XOR
distance to the target. -/
def RoutingTable.closest_nodes (t : RoutingTable) (target : NodeId) : List Node :=
  sortNodes (nodeCloser target) t.nodes

/-- Modelled from the spec: a transaction id is an ActionID naming a
long-running procedure plus a sequence number unique within it. -/
abbrev ActionID := Nat

structure TransactionID where
  action_id : ActionID
  message_id : Nat
deriving DecidableEq, Repr

def beNat (b : List Nat) : Nat := b.foldl (fun acc x => acc * 256 + x) 0

def beBytes4 (n : Nat) : List Nat :=
  [n / 16777216 % 256, n / 65536 % 256, n / 256 % 256, n % 256]

/-- Modelled from the spec: the wire tag is 8 bytes, the 4-byte
ActionID then the 4-byte sequence number, big endian. -/
def TransactionID.from_bytes (b : List Nat) : Option TransactionID :=
  if b.length = 8 then some ⟨beNat (b.take 4), beNat (b.drop 4)⟩ else none

def TransactionID.to_bytes (tid : TransactionID) : List Nat :=
  beBytes4 tid.action_id ++ beBytes4 tid.message_id

/-- Modelled from the spec: a MIDGenerator issues monotone transaction
ids sharing its ActionID. -/
structure MIDGenerator where
  aid : ActionID
  next_seq : Nat
deriving DecidableEq, Repr

def MIDGenerator.action_id (g : MIDGenerator) : ActionID := g.aid

def MIDGenerator.generate (g : MIDGenerator) : TransactionID × MIDGenerator :=
  (⟨g.aid, g.next_seq⟩, { g with next_seq := g.next_seq + 1 })

/-- Modelled from the spec: message kinds of the wire protocol
(message module is not under src); only the fields the handler reads. -/
inductive Want
  | v4
  | v6
  | both
deriving DecidableEq, Repr

structure PingRequest where
  id : NodeId
deriving DecidableEq, Repr

structure FindNodeRequest where
  id : NodeId
  target : NodeId
  want : Option Want
deriving DecidableEq, Repr

structure GetPeersRequest where
  id : NodeId
  info_hash : InfoHash
deriving DecidableEq, Repr

structure AnnouncePeerRequest where
  id : NodeId
  info_hash : InfoHash
  token : List Nat
  port : Option Nat
deriving DecidableEq, Repr

inductive Request
  | ping (p : PingRequest)
  | find_node (f : FindNodeRequest)
  | get_peers (g : GetPeersRequest)
  | announce_peer (a : AnnouncePeerRequest)
deriving DecidableEq, Repr

abbrev Token := Nat

structure OtherResponse where
  id : NodeId
  nodes_v4 : List NodeHandle
  nodes_v6 : List NodeHandle
deriving DecidableEq, Repr

structure GetPeersResponse where
  id : NodeId
  values : List SocketAddr
  nodes : List NodeHandle
  token : Token
deriving DecidableEq, Repr

inductive Response
  | get_peers (g : GetPeersResponse)
  | other (o : OtherResponse)
deriving DecidableEq, Repr

structure ErrorMessage where
  code : Nat
  message : String
deriving DecidableEq, Repr

inductive MessageBody
  | request (r : Request)
  | response (r : Response)
  | error (e : ErrorMessage)
deriving DecidableEq, Repr

structure Message where
  transaction_id : List Nat
  body : MessageBody
deriving DecidableEq, Repr

structure SentMessage where
  msg : Message
  dest : SocketAddr
deriving DecidableEq, Repr

/-- Modelled from the spec: KRPC error codes (message::error_code). -/
def PROTOCOL_ERROR : Nat := 203

/-- Modelled from the spec: KRPC error codes (message::error_code). -/
def SERVER_ERROR : Nat := 202

/-- Modelled from the spec: the token store holds a current and a
previous rolling secret; a token is derived from a secret and the
remote IP; checkin accepts a token produced under either secret.
Rotation happens between handler events and is not modelled. -/
structure TokenStore where
  curr_secret : Nat
  prev_secret : Nat
deriving DecidableEq, Repr

def makeToken (secret : Nat) (ip : Nat) : Token := Nat.pair secret ip

def TokenStore.checkout (ts : TokenStore) (ip : Nat) : Token :=
  makeToken ts.curr_secret ip

def TokenStore.checkin (ts : TokenStore) (ip : Nat) (tok : Token) : Bool :=
  tok == makeToken ts.curr_secret ip || tok == makeToken ts.prev_secret ip

/-- Modelled from the spec: Token::new parses a 4-byte value. -/
def Token.new (bytes : List Nat) : Option Token :=
  if bytes.length = 4 then some (beNat bytes) else none


-- ----------------------------------------------------------------------------
-- handler.rs: incoming requests (handle_incoming, request arms)
-- ----------------------------------------------------------------------------

/-- The request arms of DhtHandler::handle_incoming (handler.rs lines
213-416): mark the sender with remote_request when its handle is
already in the table, build the reply, and let announce_peer update
the announce storage. local_v6 stands in for the family of
socket.local_addr, and now for Instant::now inside the storage. -/
def handle_request (table : RoutingTable) (stores : AnnounceStorage)
    (token_store : TokenStore) (local_v6 : Bool) (transaction_id : List Nat)
    (req : Request) (addr : SocketAddr) (now : Nat) :
    RoutingTable × AnnounceStorage × List SentMessage :=
  match req with
  | .ping p =>
    let node : NodeHandle := ⟨p.id, addr⟩
    let table := table.find_node_update node Node.remote_request
    let ping_rsp : OtherResponse := ⟨table.node_id, [], []⟩
    let ping_msg : Message := ⟨transaction_id, .response (.other ping_rsp)⟩
    (table, stores, [⟨ping_msg, addr⟩])
  | .find_node f =>
    let node : NodeHandle := ⟨f.id, addr⟩
    let table := table.find_node_update node Node.remote_request
    let want := match f.want with
      | some want => want
      | none => if local_v6 then Want.v6 else Want.v4
    let nodes_v4 := if want == Want.v4 || want == Want.both then
        (((table.closest_nodes f.target).filter
          (fun n => n.addr.is_ipv4)).take 8).map Node.handle
      else []
    let nodes_v6 := if want == Want.v6 || want == Want.both then
        (((table.closest_nodes f.target).filter
          (fun n => n.addr.v6)).take 8).map Node.handle
      else []
    let find_node_rsp : OtherResponse := ⟨table.node_id, nodes_v4, nodes_v6⟩
    let find_node_msg : Message := ⟨transaction_id, .response (.other find_node_rsp)⟩
    (table, stores, [⟨find_node_msg, addr⟩])
  | .get_peers g =>
    let node : NodeHandle := ⟨g.id, addr⟩
    let table := table.find_node_update node Node.remote_request
    let found := stores.find_items g.info_hash now
    let values := found.1.filter SocketAddr.is_ipv4
    let stores := found.2
    let nodes := ((table.closest_nodes g.info_hash).take 8).map Node.handle
    let token := token_store.checkout addr.ip
    let get_peers_rsp : GetPeersResponse := ⟨table.node_id, values, nodes, token⟩
    let get_peers_msg : Message := ⟨transaction_id, .response (.get_peers get_peers_rsp)⟩
    (table, stores, [⟨get_peers_msg, addr⟩])
  | .announce_peer a =>
    let node : NodeHandle := ⟨a.id, addr⟩
    let table := table.find_node_update node Node.remote_request
    let is_valid := match Token.new a.token with
      | some t => token_store.checkin addr.ip t
      | none => false
    let connect_addr := match a.port with
      | none => addr
      | some port => addr.set_port port
    if !is_valid then
      (table, stores,
        [⟨⟨transaction_id, .error ⟨PROTOCOL_ERROR, "received an invalid token"⟩⟩, addr⟩])
    else
      let res := stores.add_item a.info_hash connect_addr now
      if res.1 then
        (table, res.2,
          [⟨⟨transaction_id, .response (.other ⟨table.node_id, [], []⟩)⟩, addr⟩])
      else
        (table, res.2,
          [⟨⟨transaction_id, .error ⟨SERVER_ERROR, "announce storage is full"⟩⟩, addr⟩])

/-- Id field of the sender in a request. -/
def Request.sender_id : Request → NodeId
  | .ping p => p.id
  | .find_node f => f.id
  | .get_peers g => g.id
  | .announce_peer a => a.id

theorem find_node_update_handles (t : RoutingTable) (h : NodeHandle)
    (f : Node → Node) (hf : ∀ n, (f n).handle = n.handle) :
    (t.find_node_update h f).nodes.map Node.handle = t.nodes.map Node.handle := by
  simp only [RoutingTable.find_node_update, List.map_map]
  apply List.map_congr_left
  intro n _
  by_cases hn : n.handle = h
  · simp [Function.comp, hn, hf]
  · simp [Function.comp, hn]

/-- C10: processing a request never inserts the sender (or any node)
into the routing table: the table after any request is exactly the
prior table with remote_request applied to the node already stored
under the (id, address) handle; in particular the handle set is
unchanged. -/
theorem claim_C10_request_no_insert (table : RoutingTable)
    (stores : AnnounceStorage) (token_store : TokenStore) (local_v6 : Bool)
    (transaction_id : List Nat) (req : Request) (addr : SocketAddr) (now : Nat) :
    (handle_request table stores token_store local_v6 transaction_id req addr now).1
        = table.find_node_update ⟨req.sender_id, addr⟩ Node.remote_request ∧
    (handle_request table stores token_store local_v6 transaction_id req addr now).1.nodes.map
        Node.handle = table.nodes.map Node.handle := by
  have hhandles : (table.find_node_update ⟨req.sender_id, addr⟩
      Node.remote_request).nodes.map Node.handle = table.nodes.map Node.handle :=
    find_node_update_handles table _ _ (fun n => rfl)
  cases req with
  | ping p => exact ⟨rfl, hhandles⟩
  | find_node f => exact ⟨rfl, hhandles⟩
  | get_peers g => exact ⟨rfl, hhandles⟩
  | announce_peer a =>
    constructor
    · simp only [handle_request]
      split
      · rfl
      · split
        · rfl
        · rfl
    · simp only [handle_request]
      split
      · exact hhandles
      · split
        · exact hhandles
        · exact hhandles


/-- C2: announce_peer handling: an invalid token is answered with
error 203 and the message "received an invalid token" and leaves the
storage untouched; a refused insertion is answered with error 202 and
"announce storage is full"; otherwise the pair (info_hash, sender IP
with the port of the request, or the sender source port when absent)
is inserted and an OtherResponse with empty node lists is returned. -/
theorem claim_C2_announce_peer (table : RoutingTable) (stores : AnnounceStorage)
    (token_store : TokenStore) (local_v6 : Bool) (transaction_id : List Nat)
    (a : AnnouncePeerRequest) (addr : SocketAddr) (now : Nat) :
    ((match Token.new a.token with
        | some t => token_store.checkin addr.ip t
        | none => false) = false →
      (handle_request table stores token_store local_v6 transaction_id
          (.announce_peer a) addr now).2.1 = stores ∧
      (handle_request table stores token_store local_v6 transaction_id
          (.announce_peer a) addr now).2.2
        = [⟨⟨transaction_id, .error ⟨203, "received an invalid token"⟩⟩, addr⟩]) ∧
    ((match Token.new a.token with
        | some t => token_store.checkin addr.ip t
        | none => false) = true →
      (stores.add_item a.info_hash
          (match a.port with | none => addr | some port => addr.set_port port) now).1
        = true →
      (handle_request table stores token_store local_v6 transaction_id
          (.announce_peer a) addr now).2.1
        = (stores.add_item a.info_hash
            (match a.port with | none => addr | some port => addr.set_port port) now).2 ∧
      (handle_request table stores token_store local_v6 transaction_id
          (.announce_peer a) addr now).2.2
        = [⟨⟨transaction_id, .response (.other ⟨table.node_id, [], []⟩)⟩, addr⟩]) ∧
    ((match Token.new a.token with
        | some t => token_store.checkin addr.ip t
        | none => false) = true →
      (stores.add_item a.info_hash
          (match a.port with | none => addr | some port => addr.set_port port) now).1
        = false →
      (handle_request table stores token_store local_v6 transaction_id
          (.announce_peer a) addr now).2.2
        = [⟨⟨transaction_id, .error ⟨202, "announce storage is full"⟩⟩, addr⟩]) := by
  refine ⟨?_, ?_, ?_⟩
  · intro hv
    simp only [handle_request, hv, Bool.not_false, if_pos]
    exact ⟨trivial, rfl⟩
  · intro hv hadd
    simp only [handle_request, hv, Bool.not_true, Bool.false_eq_true, if_neg,
      not_false_iff, hadd, if_pos]
    exact ⟨trivial, rfl⟩
  · intro hv hadd
    simp only [handle_request, hv, Bool.not_true, Bool.false_eq_true, if_neg,
      not_false_iff, hadd]
    rfl

/-- A storage at the 500-pair cap, for exercising the refusal path. -/
def fullStore : AnnounceStorage :=
  ⟨[(0, (List.range 500).map (fun i => AnnounceItem.new 0 ⟨false, i, 0⟩ 0))],
    (List.range 500).map (fun i => (⟨⟨false, i, 0⟩, 0, 0⟩ : ItemExpiration))⟩

set_option maxRecDepth 4000 in
theorem claim_C2_announce_peer_witness :
    ((handle_request ⟨7, []⟩ AnnounceStorage.new ⟨0, 0⟩ false [1]
        (.announce_peer ⟨5, 0, [], none⟩) ⟨false, 0, 6881⟩ 0).2.1
      = AnnounceStorage.new ∧
     (handle_request ⟨7, []⟩ AnnounceStorage.new ⟨0, 0⟩ false [1]
        (.announce_peer ⟨5, 0, [], none⟩) ⟨false, 0, 6881⟩ 0).2.2
      = [⟨⟨[1], .error ⟨203, "received an invalid token"⟩⟩, ⟨false, 0, 6881⟩⟩]) ∧
    ((handle_request ⟨7, []⟩ AnnounceStorage.new ⟨0, 0⟩ false [1]
        (.announce_peer ⟨5, 0, [0, 0, 0, 0], some 9⟩) ⟨false, 0, 6881⟩ 0).2.1
      = (AnnounceStorage.new.add_item 0 (SocketAddr.mk false 0 6881 |>.set_port 9) 0).2 ∧
     (handle_request ⟨7, []⟩ AnnounceStorage.new ⟨0, 0⟩ false [1]
        (.announce_peer ⟨5, 0, [0, 0, 0, 0], some 9⟩) ⟨false, 0, 6881⟩ 0).2.2
      = [⟨⟨[1], .response (.other ⟨7, [], []⟩)⟩, ⟨false, 0, 6881⟩⟩]) ∧
    ((handle_request ⟨7, []⟩ fullStore ⟨0, 0⟩ false [1]
        (.announce_peer ⟨5, 1, [0, 0, 0, 0], some 9⟩) ⟨false, 0, 6881⟩ 5).2.2
      = [⟨⟨[1], .error ⟨202, "announce storage is full"⟩⟩, ⟨false, 0, 6881⟩⟩]) := by
  refine ⟨?_, ?_, ?_⟩
  · exact (claim_C2_announce_peer ⟨7, []⟩ AnnounceStorage.new ⟨0, 0⟩ false [1]
      ⟨5, 0, [], none⟩ ⟨false, 0, 6881⟩ 0).1 (by decide)
  · exact (claim_C2_announce_peer ⟨7, []⟩ AnnounceStorage.new ⟨0, 0⟩ false [1]
      ⟨5, 0, [0, 0, 0, 0], some 9⟩ ⟨false, 0, 6881⟩ 0).2.1 (by decide) (by decide)
  · exact (claim_C2_announce_peer ⟨7, []⟩ fullStore ⟨0, 0⟩ false [1]
      ⟨5, 1, [0, 0, 0, 0], some 9⟩ ⟨false, 0, 6881⟩ 5).2.2 (by decide) (by decide)


-- ----------------------------------------------------------------------------
-- handler.rs: incoming responses (validation gate and dispatch)
-- ----------------------------------------------------------------------------

/-- The kinds of the three table actions; the procedure payloads live
in the external state machines. -/
inductive TableActionKind
  | lookup
  | refresh
  | bootstrap
deriving DecidableEq, Repr

/-- table_actions.get on the ActionID registry (HashMap with unique
keys, embedded as an association list). -/
def lookupAction (acts : List (ActionID × TableActionKind)) (aid : ActionID) :
    Option TableActionKind :=
  (acts.find? (fun p => p.1 == aid)).map Prod.snd

/-- The response kind compatibility used at the validation gate:
a GetPeers response matches only a Lookup action, an Other response
matches only a Refresh or Bootstrap action. -/
def kindMatches : TableActionKind → Response → Bool
  | .lookup, .get_peers _ => true
  | .refresh, .other _ => true
  | .bootstrap, .other _ => true
  | _, _ => false

/-- The response validation gate of handle_incoming (handler.rs lines
178-199): parse the tag, look the ActionID up among the registered
actions, and check the response kind against the action kind; any
failure discards the message. -/
def validate_response (acts : List (ActionID × TableActionKind))
    (transaction_id : List Nat) (resp : Response) : Option TransactionID :=
  match TransactionID.from_bytes transaction_id with
  | none => none
  | some trans_id =>
    match lookupAction acts trans_id.action_id, resp with
    | some .lookup, .get_peers _ => some trans_id
    | some .refresh, .other _ => some trans_id
    | some .bootstrap, .other _ => some trans_id
    | _, _ => none

/-- Response handling of handle_incoming: the validation gate runs
before any effect; on success the response is dispatched to the
procedure registered under the embedded ActionID. The per-procedure
processing (recv_response of the external bootstrap and lookup state
machines, plus the add_node calls around it) is the process
parameter. -/
def handle_incoming_response (acts : List (ActionID × TableActionKind))
    (table : RoutingTable) (transaction_id : List Nat) (resp : Response)
    (process : TransactionID → TableActionKind → RoutingTable →
      RoutingTable × List SentMessage) :
    RoutingTable × List SentMessage × Option (TransactionID × TableActionKind) :=
  match validate_response acts transaction_id resp with
  | none => (table, [], none)
  | some trans_id =>
    match lookupAction acts trans_id.action_id with
    | some kind =>
      let out := process trans_id kind table
      (out.1, out.2, some (trans_id, kind))
    | none => (table, [], none)

theorem validate_response_none_of_no_tid
    {acts : List (ActionID × TableActionKind)} {transaction_id : List Nat}
    {resp : Response} (h : TransactionID.from_bytes transaction_id = none) :
    validate_response acts transaction_id resp = none := by
  simp [validate_response, h]

theorem validate_response_none_of_no_action
    {acts : List (ActionID × TableActionKind)} {transaction_id : List Nat}
    {resp : Response} {trans_id : TransactionID}
    (h : TransactionID.from_bytes transaction_id = some trans_id)
    (hact : lookupAction acts trans_id.action_id = none) :
    validate_response acts transaction_id resp = none := by
  simp only [validate_response, h, hact]

theorem validate_response_none_of_mismatch
    {acts : List (ActionID × TableActionKind)} {transaction_id : List Nat}
    {resp : Response} {trans_id : TransactionID} {kind : TableActionKind}
    (h : TransactionID.from_bytes transaction_id = some trans_id)
    (hact : lookupAction acts trans_id.action_id = some kind)
    (hmis : kindMatches kind resp = false) :
    validate_response acts transaction_id resp = none := by
  simp only [validate_response, h, hact]
  cases kind <;> cases resp <;> first | rfl | (cases hmis)

theorem validate_response_eq_some
    {acts : List (ActionID × TableActionKind)} {transaction_id : List Nat}
    {resp : Response} {tid : TransactionID} {kind : TableActionKind}
    (hb : TransactionID.from_bytes transaction_id = some tid)
    (ha : lookupAction acts tid.action_id = some kind)
    (hm : kindMatches kind resp = true) :
    validate_response acts transaction_id resp = some tid := by
  simp only [validate_response, hb, ha]
  cases kind <;> cases resp <;> simp_all [kindMatches]

theorem validate_response_some
    {acts : List (ActionID × TableActionKind)} {transaction_id : List Nat}
    {resp : Response} {trans_id : TransactionID}
    (h : validate_response acts transaction_id resp = some trans_id) :
    TransactionID.from_bytes transaction_id = some trans_id ∧
      ∃ kind, lookupAction acts trans_id.action_id = some kind ∧
        kindMatches kind resp = true := by
  cases hb : TransactionID.from_bytes transaction_id with
  | none =>
    rw [validate_response_none_of_no_tid hb] at h
    cases h
  | some tid =>
    cases ha : lookupAction acts tid.action_id with
    | none =>
      rw [validate_response_none_of_no_action hb ha] at h
      cases h
    | some kind =>
      cases hm : kindMatches kind resp with
      | false =>
        rw [validate_response_none_of_mismatch hb ha hm] at h
        cases h
      | true =>
        have hv := validate_response_eq_some hb ha hm
        rw [hv] at h
        obtain rfl : tid = trans_id := Option.some.inj h
        exact ⟨rfl, kind, ha, hm⟩

/-- C5: a response whose tag does not parse, or whose ActionID has no
registered procedure, or whose kind mismatches the registered
procedure kind is discarded: nothing is sent and the routing table is
unchanged. A response that passes the gate is dispatched to exactly
the procedure registered under its ActionID, whose kind matches the
response kind. -/
theorem claim_C5_response_routing (acts : List (ActionID × TableActionKind))
    (table : RoutingTable) (transaction_id : List Nat) (resp : Response)
    (process : TransactionID → TableActionKind → RoutingTable →
      RoutingTable × List SentMessage) :
    (TransactionID.from_bytes transaction_id = none →
        handle_incoming_response acts table transaction_id resp process
          = (table, [], none)) ∧
    (∀ trans_id, TransactionID.from_bytes transaction_id = some trans_id →
        lookupAction acts trans_id.action_id = none →
        handle_incoming_response acts table transaction_id resp process
          = (table, [], none)) ∧
    (∀ trans_id kind, TransactionID.from_bytes transaction_id = some trans_id →
        lookupAction acts trans_id.action_id = some kind →
        kindMatches kind resp = false →
        handle_incoming_response acts table transaction_id resp process
          = (table, [], none)) ∧
    (∀ trans_id kind,
        (handle_incoming_response acts table transaction_id resp process).2.2
            = some (trans_id, kind) →
        TransactionID.from_bytes transaction_id = some trans_id ∧
          lookupAction acts trans_id.action_id = some kind ∧
          kindMatches kind resp = true) := by
  refine ⟨?_, ?_, ?_, ?_⟩
  · intro h
    simp [handle_incoming_response, validate_response_none_of_no_tid h]
  · intro trans_id h hact
    simp [handle_incoming_response, validate_response_none_of_no_action h hact]
  · intro trans_id kind h hact hmis
    simp [handle_incoming_response, validate_response_none_of_mismatch h hact hmis]
  · intro trans_id kind hout
    cases hv : validate_response acts transaction_id resp with
    | none =>
      simp only [handle_incoming_response, hv] at hout
      cases hout
    | some tid =>
      obtain ⟨hb, kind2, hact, hmatch⟩ := validate_response_some hv
      simp only [handle_incoming_response, hv, hact] at hout
      simp only [Option.some.injEq, Prod.mk.injEq] at hout
      obtain ⟨h1, h2⟩ := hout
      subst h1
      subst h2
      exact ⟨hb, hact, hmatch⟩

theorem claim_C5_response_routing_witness :
    (handle_incoming_response [(1, TableActionKind.refresh)] ⟨0, []⟩ [0]
        (.other ⟨0, [], []⟩) (fun _ _ table => (table, []))
      = (⟨0, []⟩, [], none)) ∧
    (TransactionID.from_bytes [0, 0, 0, 1, 0, 0, 0, 0] = some ⟨1, 0⟩ ∧
      lookupAction [(1, TableActionKind.refresh)] (1 : ActionID)
        = some TableActionKind.refresh ∧
      kindMatches TableActionKind.refresh (.other ⟨0, [], []⟩) = true) := by
  constructor
  · exact (claim_C5_response_routing [(1, TableActionKind.refresh)] ⟨0, []⟩ [0]
      (.other ⟨0, [], []⟩) (fun _ _ table => (table, []))).1 (by decide)
  · have h4 := (claim_C5_response_routing [(1, TableActionKind.refresh)] ⟨0, []⟩
      [0, 0, 0, 1, 0, 0, 0, 0] (.other ⟨0, [], []⟩)
      (fun _ _ table => (table, []))).2.2.2 ⟨1, 0⟩ TableActionKind.refresh (by decide)
    have h5 : TransactionID.from_bytes [0, 0, 0, 1, 0, 0, 0, 0]
        = some (⟨1, 0⟩ : TransactionID) := h4.1
    exact ⟨h5, h4.2.1, h4.2.2⟩


-- ----------------------------------------------------------------------------
-- worker/refresh.rs
-- ----------------------------------------------------------------------------

/-- refresh.rs REFRESH_INTERVAL_TIMEOUT, in milliseconds. -/
def REFRESH_INTERVAL_TIMEOUT : Nat := 6000

/-- The timer token scheduled by the refresh task; the other timer
tokens belong to event paths modelled elsewhere. -/
inductive ScheduledTaskCheck
  | table_refresh
deriving DecidableEq, Repr

/-- refresh.rs TableRefresh. -/
structure TableRefresh where
  id_generator : MIDGenerator
  curr_refresh_bucket : Nat
deriving DecidableEq, Repr

/-- Rust TableRefresh::new. -/
def TableRefresh.new (id_generator : MIDGenerator) : TableRefresh :=
  ⟨id_generator, 0⟩

/-- refresh.rs TableRefresh::continue_refresh: wrap the cursor at 160,
flip the cursor bit of the local id as the target, send one find_node
to the first Questionable node of closest_nodes and mark local_request
on it (or send nothing when there is none), schedule the next firing
REFRESH_INTERVAL_TIMEOUT out, and advance the cursor. Returns the new
task state, the table, the sent messages and the scheduled timers. -/
def TableRefresh.continue_refresh (r : TableRefresh) (table : RoutingTable) :
    TableRefresh × RoutingTable × List SentMessage × List (Nat × ScheduledTaskCheck) :=
  let r := if r.curr_refresh_bucket = MAX_BUCKETS then
      { r with curr_refresh_bucket := 0 } else r
  let target_id := flip_bit table.node_id r.curr_refresh_bucket
  match ((table.closest_nodes target_id).find?
      (fun n => n.status == NodeStatus.questionable)).map Node.handle with
  | some node =>
    let gen := r.id_generator.generate
    let trans_id := gen.1
    let find_node_req : FindNodeRequest := ⟨table.node_id, target_id, none⟩
    let find_node_msg : Message :=
      ⟨trans_id.to_bytes, .request (.find_node find_node_req)⟩
    let table := table.find_node_update node Node.local_request
    ({ id_generator := gen.2, curr_refresh_bucket := r.curr_refresh_bucket + 1 },
      table, [⟨find_node_msg, node.addr⟩],
      [(REFRESH_INTERVAL_TIMEOUT, ScheduledTaskCheck.table_refresh)])
  | none =>
    ({ r with curr_refresh_bucket := r.curr_refresh_bucket + 1 },
      table, [], [(REFRESH_INTERVAL_TIMEOUT, ScheduledTaskCheck.table_refresh)])

/-- C8: each continue_refresh call normalizes the cursor c (0 when it
equals 160), targets flip_bit c of the local id, sends exactly one
find_node to the first Questionable node of closest_nodes and marks
local_request on it, or sends nothing when no Questionable node
exists; either way it schedules the next firing 6000 ms out and leaves
the cursor at c + 1. -/
theorem claim_C8_refresh (r : TableRefresh) (table : RoutingTable) :
    ((r.continue_refresh table).1.curr_refresh_bucket
        = (if r.curr_refresh_bucket = MAX_BUCKETS then 0
            else r.curr_refresh_bucket) + 1) ∧
    ((r.continue_refresh table).2.2.2
        = [(6000, ScheduledTaskCheck.table_refresh)]) ∧
    (((table.closest_nodes (flip_bit table.node_id
          (if r.curr_refresh_bucket = MAX_BUCKETS then 0
            else r.curr_refresh_bucket))).find?
        (fun n => n.status == NodeStatus.questionable) = none →
      (r.continue_refresh table).2.2.1 = [] ∧
      (r.continue_refresh table).2.1 = table ∧
      (r.continue_refresh table).1.id_generator = r.id_generator)) ∧
    (∀ n, (table.closest_nodes (flip_bit table.node_id
          (if r.curr_refresh_bucket = MAX_BUCKETS then 0
            else r.curr_refresh_bucket))).find?
        (fun n2 => n2.status == NodeStatus.questionable) = some n →
      n.status = NodeStatus.questionable ∧
      (r.continue_refresh table).2.2.1
        = [⟨⟨(r.id_generator.generate).1.to_bytes,
            .request (.find_node ⟨table.node_id,
              flip_bit table.node_id
                (if r.curr_refresh_bucket = MAX_BUCKETS then 0
                  else r.curr_refresh_bucket), none⟩)⟩, n.addr⟩] ∧
      (r.continue_refresh table).2.1
        = table.find_node_update n.handle Node.local_request ∧
      (r.continue_refresh table).1.id_generator = (r.id_generator.generate).2) := by
  by_cases hc : r.curr_refresh_bucket = MAX_BUCKETS
  all_goals
    refine ⟨?_, ?_, ?_, ?_⟩
  · cases hfind : ((table.closest_nodes (flip_bit table.node_id 0)).find?
        (fun n => n.status == NodeStatus.questionable)) with
    | none => simp [TableRefresh.continue_refresh, hc, hfind]
    | some n => simp [TableRefresh.continue_refresh, hc, hfind]
  · cases hfind : ((table.closest_nodes (flip_bit table.node_id 0)).find?
        (fun n => n.status == NodeStatus.questionable)) with
    | none => simp [TableRefresh.continue_refresh, hc, hfind] <;> rfl
    | some n =>
      simp [TableRefresh.continue_refresh, hc, hfind]
      rfl
  · intro hfind
    rw [if_pos hc] at hfind
    simp [TableRefresh.continue_refresh, hc, hfind]
  · intro n hfind
    rw [if_pos hc] at hfind
    have hq : n.status = NodeStatus.questionable := by
      have := List.find?_some hfind
      simpa using this
    refine ⟨hq, ?_, ?_, ?_⟩ <;>
      (simp [TableRefresh.continue_refresh, hc, hfind] <;> rfl)
  · cases hfind : ((table.closest_nodes (flip_bit table.node_id
        r.curr_refresh_bucket)).find?
        (fun n => n.status == NodeStatus.questionable)) with
    | none => simp [TableRefresh.continue_refresh, hc, hfind]
    | some n => simp [TableRefresh.continue_refresh, hc, hfind]
  · cases hfind : ((table.closest_nodes (flip_bit table.node_id
        r.curr_refresh_bucket)).find?
        (fun n => n.status == NodeStatus.questionable)) with
    | none => simp [TableRefresh.continue_refresh, hc, hfind] <;> rfl
    | some n =>
      simp [TableRefresh.continue_refresh, hc, hfind]
      rfl
  · intro hfind
    rw [if_neg hc] at hfind
    simp [TableRefresh.continue_refresh, hc, hfind]
  · intro n hfind
    rw [if_neg hc] at hfind
    have hq : n.status = NodeStatus.questionable := by
      have := List.find?_some hfind
      simpa using this
    refine ⟨hq, ?_, ?_, ?_⟩ <;>
      (simp [TableRefresh.continue_refresh, hc, hfind] <;> rfl)

theorem claim_C8_refresh_witness :
    (((TableRefresh.new ⟨3, 0⟩).continue_refresh ⟨0, []⟩).2.2.1 = [] ∧
      ((TableRefresh.new ⟨3, 0⟩).continue_refresh ⟨0, []⟩).2.1 = ⟨0, []⟩) ∧
    ((TableRefresh.new ⟨3, 0⟩).continue_refresh
        ⟨0, [⟨⟨5, ⟨false, 1, 1⟩⟩, .questionable, false, false⟩]⟩).2.2.1
      = [⟨⟨TransactionID.to_bytes ⟨3, 0⟩,
          .request (.find_node ⟨0, flip_bit 0 0, none⟩)⟩, ⟨false, 1, 1⟩⟩] := by
  constructor
  · have h := (claim_C8_refresh (TableRefresh.new ⟨3, 0⟩) ⟨0, []⟩).2.2.1 (by decide)
    exact ⟨h.1, h.2.1⟩
  · have h := (claim_C8_refresh (TableRefresh.new ⟨3, 0⟩)
      ⟨0, [⟨⟨5, ⟨false, 1, 1⟩⟩, .questionable, false, false⟩]⟩).2.2.2
      ⟨⟨5, ⟨false, 1, 1⟩⟩, .questionable, false, false⟩ (by decide)
    exact h.2.1


-- ----------------------------------------------------------------------------
-- handler.rs: bootstrap progress, rebootstrap and the emitted events
-- ----------------------------------------------------------------------------

/-- handler.rs MAX_BOOTSTRAP_ATTEMPTS. -/
def MAX_BOOTSTRAP_ATTEMPTS : Nat := 3

/-- handler.rs BOOTSTRAP_GOOD_NODE_THRESHOLD. -/
def BOOTSTRAP_GOOD_NODE_THRESHOLD : Nat := 10

/-- Modelled from the spec: the status a bootstrap start or progress
event reports (bootstrap.rs is not under src). -/
inductive BootstrapStatus
  | idle
  | bootstrapping
  | completed
  | failed
deriving DecidableEq, Repr

/-- The events the handler emits upward. -/
inductive DhtEvent
  | bootstrap_completed
  | bootstrap_failed
  | lookup_completed (info_hash : InfoHash)
  | peer_found (info_hash : InfoHash) (addr : SocketAddr)
deriving DecidableEq, Repr

/-- handler.rs num_good_nodes. -/
def num_good_nodes (table : RoutingTable) : Nat :=
  ((table.closest_nodes table.node_id).filter
    (fun n => n.status == NodeStatus.good)).length

/-- handler.rs should_rebootstrap. -/
def should_rebootstrap (table : RoutingTable) : Bool :=
  num_good_nodes table ≤ BOOTSTRAP_GOOD_NODE_THRESHOLD

/-- handler.rs attempt_rebootstrap. TableBootstrap::start_bootstrap is
not under src, so the statuses of successive restarts come from an
oracle indexed by the restart number k (modelled from the spec: a
start reports one of the four statuses). Returns the Option result of
the Rust function, the final attempts counter, and the number of
start_bootstrap calls made. -/
def attempt_rebootstrap (oracle : Nat → BootstrapStatus) (table : RoutingTable) :
    Nat → Nat → Option Bool × Nat × Nat
  | k, attempts =>
    let attempts2 := attempts + 1
    if MAX_BOOTSTRAP_ATTEMPTS ≤ attempts2 then
      (if num_good_nodes table = 0 then none else some false, attempts2, 0)
    else
      match oracle k with
      | .idle => (some false, attempts2, 1)
      | .bootstrapping => (some true, attempts2, 1)
      | .failed => (none, attempts2, 1)
      | .completed =>
        if should_rebootstrap table then
          let r := attempt_rebootstrap oracle table (k + 1) attempts2
          (r.1, r.2.1, r.2.2 + 1)
        else (some false, attempts2, 1)
  termination_by k attempts => MAX_BOOTSTRAP_ATTEMPTS - attempts
  decreasing_by
    simp only [MAX_BOOTSTRAP_ATTEMPTS] at *
    omega

/-- Outcome of one bootstrap progress event: emitted events, whether
the handler keeps running, the attempts counter, and the number of
start_bootstrap calls made. -/
structure BootstrapStepResult where
  events : List DhtEvent
  running : Bool
  attempts : Nat
  starts : Nat
deriving DecidableEq, Repr

/-- The status handling shared by handle_start_bootstrap,
handle_check_bootstrap_timeout and the bootstrap response arm of
handle_incoming (handler.rs lines 463-500, 605-646, 687-724): Idle and
Completed without rebootstrap broadcast BootstrapCompleted; Failed
emits BootstrapFailed and shuts down; Completed with up to ten good
nodes invokes attempt_rebootstrap, whose None result shuts the handler
down with no event, Some false broadcasts BootstrapCompleted and Some
true keeps bootstrapping. -/
def bootstrap_status_step (status : BootstrapStatus) (attempts : Nat)
    (table : RoutingTable) (oracle : Nat → BootstrapStatus) : BootstrapStepResult :=
  match status with
  | .idle => ⟨[DhtEvent.bootstrap_completed], true, attempts, 0⟩
  | .bootstrapping => ⟨[], true, attempts, 0⟩
  | .failed => ⟨[DhtEvent.bootstrap_failed], false, attempts, 0⟩
  | .completed =>
    if should_rebootstrap table then
      match attempt_rebootstrap oracle table 0 attempts with
      | (some started, a2, st) =>
        if started then ⟨[], true, a2, st⟩
        else ⟨[DhtEvent.bootstrap_completed], true, a2, st⟩
      | (none, a2, st) => ⟨[], false, a2, st⟩
    else ⟨[DhtEvent.bootstrap_completed], true, attempts, 0⟩

theorem attempt_rebootstrap_starts_le (oracle : Nat → BootstrapStatus)
    (table : RoutingTable) :
    ∀ (g k attempts : Nat), MAX_BOOTSTRAP_ATTEMPTS - attempts ≤ g →
      (attempt_rebootstrap oracle table k attempts).2.2
        ≤ MAX_BOOTSTRAP_ATTEMPTS - 1 - attempts := by
  intro g
  induction g with
  | zero =>
    intro k attempts hg
    rw [attempt_rebootstrap]
    have h3 : MAX_BOOTSTRAP_ATTEMPTS ≤ attempts := by omega
    rw [if_pos (by omega)]
    simp only
    omega
  | succ g ih =>
    intro k attempts hg
    rw [attempt_rebootstrap]
    by_cases h3 : MAX_BOOTSTRAP_ATTEMPTS ≤ attempts + 1
    · rw [if_pos h3]
      simp only
      omega
    · rw [if_neg h3]
      simp only [MAX_BOOTSTRAP_ATTEMPTS] at h3 ⊢
      cases oracle k with
      | idle => simp only; omega
      | bootstrapping => simp only; omega
      | failed => simp only; omega
      | completed =>
        by_cases hreb : should_rebootstrap table
        · rw [if_pos hreb]
          rcases hrec2 : attempt_rebootstrap oracle table (k + 1) (attempts + 1)
            with ⟨ro, ra, rs⟩
          have hrec := ih (k + 1) (attempts + 1) (by
            simp only [MAX_BOOTSTRAP_ATTEMPTS] at hg ⊢
            omega)
          rw [hrec2] at hrec
          rw [show MAX_BOOTSTRAP_ATTEMPTS = 3 from rfl] at hrec
          simp only [hrec2]
          have hrec3 : rs ≤ 3 - 1 - (attempts + 1) := hrec
          omega
        · rw [if_neg hreb]
          simp only
          omega

theorem attempt_rebootstrap_exhausted (oracle : Nat → BootstrapStatus)
    (table : RoutingTable) (k attempts : Nat)
    (hmax : MAX_BOOTSTRAP_ATTEMPTS ≤ attempts + 1) :
    attempt_rebootstrap oracle table k attempts
      = (if num_good_nodes table = 0 then none else some false, attempts + 1, 0) := by
  rw [attempt_rebootstrap, if_pos hmax]

/-- C6 (amended): (i) from a fresh command the rebootstrap loop makes
at most MAX_BOOTSTRAP_ATTEMPTS - 1 further start_bootstrap calls;
with the initial start this bounds a command by 3 attempts; (ii)
BootstrapFailed is emitted by a progress event exactly when the
bootstrap machine reports Failed, not only on exhausted attempts;
(iii) when the rebootstrap loop gives up (attempts exhausted with zero
good nodes, or a restarted bootstrap reports Failed) the handler stops
without emitting any event; (iv) exhausting the attempts with at least
one good node emits exactly one BootstrapCompleted even though the
good-node count is at most 10; a completed bootstrap with more than 10
good nodes also emits exactly one BootstrapCompleted. -/
theorem claim_C6_rebootstrap (oracle : Nat → BootstrapStatus)
    (table : RoutingTable) (status : BootstrapStatus) (attempts k : Nat) :
    ((attempt_rebootstrap oracle table k attempts).2.2
        ≤ MAX_BOOTSTRAP_ATTEMPTS - 1 - attempts) ∧
    ((bootstrap_status_step status attempts table oracle).events
        = [DhtEvent.bootstrap_failed] ↔ status = BootstrapStatus.failed) ∧
    (should_rebootstrap table = true →
      (attempt_rebootstrap oracle table 0 attempts).1 = none →
      (bootstrap_status_step BootstrapStatus.completed attempts table oracle).events
          = [] ∧
      (bootstrap_status_step BootstrapStatus.completed attempts table oracle).running
          = false) ∧
    (MAX_BOOTSTRAP_ATTEMPTS ≤ attempts + 1 → 0 < num_good_nodes table →
      num_good_nodes table ≤ BOOTSTRAP_GOOD_NODE_THRESHOLD →
      (bootstrap_status_step BootstrapStatus.completed attempts table oracle).events
        = [DhtEvent.bootstrap_completed]) ∧
    (¬(num_good_nodes table ≤ BOOTSTRAP_GOOD_NODE_THRESHOLD) →
      (bootstrap_status_step BootstrapStatus.completed attempts table oracle).events
        = [DhtEvent.bootstrap_completed]) := by
  refine ⟨?_, ?_, ?_, ?_, ?_⟩
  · exact attempt_rebootstrap_starts_le oracle table
      (MAX_BOOTSTRAP_ATTEMPTS - attempts) k attempts (le_refl _)
  · constructor
    · intro hev
      cases status with
      | idle => simp [bootstrap_status_step] at hev
      | bootstrapping => simp [bootstrap_status_step] at hev
      | failed => rfl
      | completed =>
        exfalso
        simp only [bootstrap_status_step] at hev
        by_cases hreb : should_rebootstrap table
        · rw [if_pos hreb] at hev
          rcases hres : attempt_rebootstrap oracle table 0 attempts with ⟨ob, a2, st⟩
          rw [hres] at hev
          match ob with
          | some true => simp at hev
          | some false => simp at hev
          | none => simp at hev
        · rw [if_neg hreb] at hev
          simp at hev
    · intro hst
      rw [hst]
      rfl
  · intro hreb hnone
    simp only [bootstrap_status_step]
    rw [if_pos hreb]
    rcases hres : attempt_rebootstrap oracle table 0 attempts with ⟨ob, a2, st⟩
    rw [hres] at hnone
    have hob : ob = none := hnone
    subst hob
    exact ⟨rfl, rfl⟩
  · intro hmax hpos hle
    simp only [bootstrap_status_step]
    rw [if_pos (by simpa [should_rebootstrap] using hle)]
    rw [attempt_rebootstrap_exhausted oracle table 0 attempts hmax]
    rw [if_neg (by omega)]
    rfl
  · intro hgt
    simp only [bootstrap_status_step]
    rw [if_neg (by simpa [should_rebootstrap] using hgt)]

theorem claim_C6_rebootstrap_witness :
    ((attempt_rebootstrap (fun _ => BootstrapStatus.completed) ⟨0, []⟩ 0 0).2.2
        ≤ MAX_BOOTSTRAP_ATTEMPTS - 1 - 0) ∧
    ((bootstrap_status_step BootstrapStatus.completed 2 ⟨0, []⟩
        (fun _ => BootstrapStatus.completed)).events = [] ∧
      (bootstrap_status_step BootstrapStatus.completed 2 ⟨0, []⟩
        (fun _ => BootstrapStatus.completed)).running = false) := by
  constructor
  · exact (claim_C6_rebootstrap (fun _ => BootstrapStatus.completed) ⟨0, []⟩
      BootstrapStatus.idle 0 0).1
  · exact (claim_C6_rebootstrap (fun _ => BootstrapStatus.completed) ⟨0, []⟩
      BootstrapStatus.idle 2 0).2.2.1 (by decide) (by
        rw [attempt_rebootstrap_exhausted _ _ 0 2 (by simp [MAX_BOOTSTRAP_ATTEMPTS])]
        rfl)

/-- C6 counterexample to the claim as stated: a bootstrap progress
event reporting Failed makes the handler emit BootstrapFailed and stop
with the attempts counter still at 0, although the 3 attempts are not
exhausted; so BootstrapFailed is not emitted only on exhausted
attempts. -/
theorem claim_C6_counterexample :
    (bootstrap_status_step BootstrapStatus.failed 0 ⟨0, []⟩
        (fun _ => BootstrapStatus.idle)).events = [DhtEvent.bootstrap_failed] ∧
    (bootstrap_status_step BootstrapStatus.failed 0 ⟨0, []⟩
        (fun _ => BootstrapStatus.idle)).running = false ∧
    0 + 1 < MAX_BOOTSTRAP_ATTEMPTS := by
  refine ⟨rfl, rfl, by decide⟩


-- ----------------------------------------------------------------------------
-- handler.rs: lookups queued while bootstrapping
-- ----------------------------------------------------------------------------

/-- handler.rs PostBootstrapAction. -/
inductive PostBootstrapAction
  | lookup (info_hash : InfoHash) (should_announce : Bool)
  | refresh (refresh : TableRefresh) (trans_id : TransactionID)
deriving DecidableEq, Repr

/-- handler.rs DhtHandler::handle_start_lookup (lines 758-780): while
bootstrapping the lookup is only queued onto future_actions; otherwise
a TableLookup is created under a fresh ActionID and registered.
TableLookup::new is not under src; the messages it would send are the
lookup_msgs parameter. Returns the future actions, the registered
actions and the messages sent. -/
def handle_start_lookup (bootstrapping : Bool)
    (future_actions : List PostBootstrapAction)
    (table_actions : List (ActionID × TableActionKind)) (action_id : ActionID)
    (info_hash : InfoHash) (should_announce : Bool)
    (lookup_msgs : List SentMessage) :
    List PostBootstrapAction × List (ActionID × TableActionKind) × List SentMessage :=
  if bootstrapping then
    (future_actions ++ [PostBootstrapAction.lookup info_hash should_announce],
      table_actions, [])
  else
    (future_actions, table_actions ++ [(action_id, TableActionKind.lookup)],
      lookup_msgs)

/-- One item of the ordered outward trace of an event handler. -/
inductive OutItem
  | event (e : DhtEvent)
  | sent (m : SentMessage)
deriving DecidableEq, Repr

/-- handler.rs DhtHandler::broadcast_bootstrap_completed (lines
729-756): emit BootstrapCompleted first, then drain future_actions in
order, starting each queued lookup and the refresh task. The messages
each started action sends are the lookup_msgs and refresh_msgs
parameters. Returns the ordered outward trace. -/
def broadcast_bootstrap_completed (future_actions : List PostBootstrapAction)
    (lookup_msgs : InfoHash → Bool → List SentMessage)
    (refresh_msgs : TableRefresh → List SentMessage) : List OutItem :=
  OutItem.event DhtEvent.bootstrap_completed ::
    (future_actions.map (fun act =>
      match act with
      | .lookup h ann => (lookup_msgs h ann).map OutItem.sent
      | .refresh r _ => (refresh_msgs r).map OutItem.sent)).flatten

/-- C7: while bootstrapping a StartLookup command creates no lookup
and sends nothing: it only appends the lookup to future_actions; the
queued lookups start only inside broadcast_bootstrap_completed, whose
outward trace begins with the BootstrapCompleted event, so every
lookup message appears strictly after BootstrapCompleted. -/
theorem claim_C7_lookup_queued (future_actions : List PostBootstrapAction)
    (table_actions : List (ActionID × TableActionKind)) (action_id : ActionID)
    (info_hash : InfoHash) (should_announce : Bool)
    (lookup_msgs_now : List SentMessage)
    (lookup_msgs : InfoHash → Bool → List SentMessage)
    (refresh_msgs : TableRefresh → List SentMessage) :
    (handle_start_lookup true future_actions table_actions action_id info_hash
        should_announce lookup_msgs_now
      = (future_actions ++ [PostBootstrapAction.lookup info_hash should_announce],
          table_actions, [])) ∧
    ((broadcast_bootstrap_completed future_actions lookup_msgs refresh_msgs).head?
        = some (OutItem.event DhtEvent.bootstrap_completed)) ∧
    (∀ i m, (broadcast_bootstrap_completed future_actions lookup_msgs
        refresh_msgs)[i]? = some (OutItem.sent m) → 0 < i) := by
  refine ⟨rfl, rfl, ?_⟩
  intro i m hit
  cases i with
  | zero =>
    simp [broadcast_bootstrap_completed] at hit
  | succ n => exact Nat.succ_pos n

theorem claim_C7_lookup_queued_witness :
    (handle_start_lookup true [] [] 9 4 false [⟨⟨[], .error ⟨0, ""⟩⟩, ⟨false, 0, 0⟩⟩]
        = ([PostBootstrapAction.lookup 4 false], [], [])) ∧
    ((broadcast_bootstrap_completed [PostBootstrapAction.lookup 4 false]
        (fun _ _ => [⟨⟨[], .error ⟨0, ""⟩⟩, ⟨false, 0, 0⟩⟩]) (fun _ => [])).head?
      = some (OutItem.event DhtEvent.bootstrap_completed)) ∧
    (0 : Nat) < 1 := by
  have h := claim_C7_lookup_queued [PostBootstrapAction.lookup 4 false] [] 9 4 false
    [⟨⟨[], .error ⟨0, ""⟩⟩, ⟨false, 0, 0⟩⟩]
    (fun _ _ => [⟨⟨[], .error ⟨0, ""⟩⟩, ⟨false, 0, 0⟩⟩]) (fun _ => [])
  have h1 := claim_C7_lookup_queued [] [] 9 4 false
    [⟨⟨[], .error ⟨0, ""⟩⟩, ⟨false, 0, 0⟩⟩]
    (fun _ _ => [⟨⟨[], .error ⟨0, ""⟩⟩, ⟨false, 0, 0⟩⟩]) (fun _ => [])
  refine ⟨h1.1, h.2.1, ?_⟩
  exact h.2.2 1 ⟨⟨[], .error ⟨0, ""⟩⟩, ⟨false, 0, 0⟩⟩ (by decide)

end BipDht
